import Mathlib

/-!
Verification of the channel-config tree algebra, predicate compiler,
validation-rule engine, and channel-naming derivation.

The definitions below are a shallow embedding of the Python source in
`channel_tool/__main__.py`, `channel_tool/validation.py`,
`channel_tool/validation_rules/__init__.py` and `channel_tool/naming.py`.
YAML values are modelled by the inductive type `Value`; Python `dict`s are
association lists with unique keys (insertion-ordered, as in CPython);
Python exceptions (AssertionError, IndexError, TypeError, ValueError) are
modelled by the `Except PyErr` monad.
-/

set_option maxHeartbeats 1600000

/-- A semi-structured YAML value: scalar (null / bool / int / string),
sequence, or string-keyed mapping (association list, insertion order kept). -/
inductive Value where
  | null : Value
  | bool : Bool → Value
  | int : Int → Value
  | str : String → Value
  | seq : List Value → Value
  | map : List (String × Value) → Value
deriving Repr

/-- Exceptions raised by the embedded Python code. -/
inductive PyErr where
  | assertionError : PyErr
  | typeError : PyErr
  | indexError : PyErr
  | keyError : PyErr
  | valueError : String → PyErr
  | namingError : String → PyErr
deriving Repr, DecidableEq

/-- First-match association-list lookup, i.e. `m[k]` / `k in m` on a
Python dict (keys are unique there, so first match is the match). -/
def alookup (m : List (String × Value)) (k : String) : Option Value :=
  match m with
  | [] => none
  | (k', v) :: rest => if k' = k then some v else alookup rest k

/-- `m[k] = v` on a dict whose key `k` is already present: replace the
value in place, keeping insertion order. -/
def aset (m : List (String × Value)) (k : String) (v : Value) :
    List (String × Value) :=
  m.map fun kv => (kv.1, if kv.1 = k then v else kv.2)

/-- `del m[k]` on a dict: drop the entry, keeping the order of the rest. -/
def adel (m : List (String × Value)) (k : String) : List (String × Value) :=
  m.filter fun kv => kv.1 ≠ k

/-- The key list of a mapping. -/
def mapKeys (m : List (String × Value)) : List String :=
  m.map Prod.fst

/-- Python truthiness on our values: `None`, `False`, `0`, `""`, `[]`, `{}`
are falsy, everything else is truthy. -/
def truthy : Value → Bool
  | .null => false
  | .bool b => b
  | .int n => n != 0
  | .str s => s ≠ ""
  | .seq xs => ¬ xs.isEmpty
  | .map m => ¬ m.isEmpty

/-- Truthiness of an `Optional[Any]`: Python `None` is falsy. -/
def optTruthy : Option Value → Bool
  | none => false
  | some v => truthy v

/-- `isinstance(x, str)`. -/
def isStrV : Value → Bool
  | .str _ => true
  | _ => false

/-- `isinstance(x, dict)`. -/
def isMapV : Value → Bool
  | .map _ => true
  | _ => false

/-- `isinstance(x, Sequence)`: in CPython a `str` is a `Sequence`. -/
def isSeqLike : Value → Bool
  | .seq _ => true
  | .str _ => true
  | _ => false

/-- `is_list_or_dict` from `channel_tool/__main__.py`
(`isinstance(x, Sequence) or isinstance(x, dict)`); note that this is
true of strings. -/
def is_list_or_dict (x : Value) : Bool :=
  isSeqLike x || isMapV x

/-- A scalar: neither a mapping nor a sequence (strings count as
sequences here, as in CPython). -/
def isScalarV (x : Value) : Bool :=
  ¬ is_list_or_dict x

/-- Iterating a string yields its characters as one-character strings. -/
def strChars (s : String) : List Value :=
  s.data.map fun c => .str (String.mk [c])

/-- The element list obtained by iterating a `Sequence` (a list yields its
elements, a string its characters); `none` for non-sequences. -/
def seqElems : Value → Option (List Value)
  | .seq xs => some xs
  | .str s => some (strChars s)
  | _ => none

mutual

/-- Python `==` on our values. Numbers compare across `bool`/`int`
(`True == 1`), strings and `None` compare within their own type, lists
compare elementwise, dicts compare by key lookup; values of different
categories are unequal. -/
def pyEq : Value → Value → Bool
  | .null, .null => true
  | .bool a, .bool b => a == b
  | .bool a, .int n => (if a then (1 : Int) else 0) == n
  | .int m, .bool b => m == (if b then (1 : Int) else 0)
  | .int m, .int n => m == n
  | .str s, .str t => s == t
  | .seq xs, .seq ys => pyEqList xs ys
  | .map xs, .map ys => xs.length == ys.length && pyEqEntries xs ys
  | _, _ => false
termination_by a b => sizeOf a + sizeOf b

/-- Elementwise Python `==` on lists. -/
def pyEqList : List Value → List Value → Bool
  | [], [] => true
  | x :: xs, y :: ys => pyEq x y && pyEqList xs ys
  | _, _ => false
termination_by xs ys => sizeOf xs + sizeOf ys

/-- For each entry of the first dict, the second dict has the key with an
equal value (CPython `dict.__eq__` checks this after the length check). -/
def pyEqEntries : List (String × Value) → List (String × Value) → Bool
  | [], _ => true
  | (k, v) :: rest, ys => pyEqKey k v ys && pyEqEntries rest ys
termination_by xs ys => sizeOf xs + sizeOf ys

/-- Look up `k` in the dict and compare the found value with `v`. -/
def pyEqKey (k : String) (v : Value) : List (String × Value) → Bool
  | [] => false
  | (k', w) :: rest => if k' = k then pyEq v w else pyEqKey k v rest
termination_by ys => sizeOf v + sizeOf ys

end

/-- Python `x in ml` on a list (CPython compares `item == x` for each
list item). -/
def pyMem (x : Value) (l : List Value) : Bool :=
  l.any fun e => pyEq e x

/-- The loop `for x in chain(a, b): if x not in ml: ml.append(x)`;
`seen` is the list built so far. -/
def pyDedupGo (seen : List Value) : List Value → List Value
  | [] => []
  | x :: rest =>
    if pyMem x seen then pyDedupGo seen rest
    else x :: pyDedupGo (seen ++ [x]) rest

/-- Deduplicate by Python value equality, keeping first occurrences. -/
def pyDedup (l : List Value) : List Value :=
  pyDedupGo [] l

/-- Extract the underlying strings when every element is a string. -/
def allStrings : List Value → Option (List String)
  | [] => some []
  | .str s :: rest => (allStrings rest).map fun ss => s :: ss
  | _ => none

/-- Code-point comparison of strings as char lists, `a <= b` in Python
(Python compares strings lexicographically by Unicode code point). -/
def charsLe : List Char → List Char → Bool
  | [], _ => true
  | _ :: _, [] => false
  | c :: cs, d :: ds =>
    if c.toNat < d.toNat then true
    else if d.toNat < c.toNat then false
    else charsLe cs ds

/-- `s <= t` for Python strings. -/
def pyStrLe (s t : String) : Bool :=
  charsLe s.data t.data

theorem charsLe_total (a b : List Char) :
    charsLe a b = true ∨ charsLe b a = true := by
  induction a generalizing b with
  | nil => left; rfl
  | cons c cs ih =>
    cases b with
    | nil => right; rfl
    | cons d ds =>
      simp only [charsLe]
      rcases Nat.lt_trichotomy c.toNat d.toNat with h | h | h
      · left; simp [h]
      · simp [h, Nat.lt_irrefl]
        exact ih ds
      · right; simp [h]

theorem charsLe_trans {a b c : List Char} (h1 : charsLe a b = true)
    (h2 : charsLe b c = true) : charsLe a c = true := by
  induction a generalizing b c with
  | nil => rfl
  | cons x xs ih =>
    cases b with
    | nil => simp [charsLe] at h1
    | cons y ys =>
      cases c with
      | nil => simp [charsLe] at h2
      | cons z zs =>
        simp only [charsLe] at h1 h2 ⊢
        split at h1 <;> split at h2 <;> rename_i ha hb
        · simp only [if_pos (Nat.lt_trans ha hb)]
        · split at h2
          · simp at h2
          · rename_i hb'
            have hyz : y.toNat = z.toNat := by omega
            simp [hyz ▸ ha]
        · split at h1
          · simp at h1
          · rename_i ha'
            have hxy : x.toNat = y.toNat := by omega
            simp [hxy, hb]
        · split at h1
          · simp at h1
          · split at h2
            · simp at h2
            · rename_i ha' hb'
              have hxy : x.toNat = y.toNat := by omega
              have hyz : y.toNat = z.toNat := by omega
              rw [hxy, hyz]
              simp [Nat.lt_irrefl]
              exact ih h1 h2

theorem charsLe_antisymm {a b : List Char} (h1 : charsLe a b = true)
    (h2 : charsLe b a = true) : a = b := by
  induction a generalizing b with
  | nil =>
    cases b with
    | nil => rfl
    | cons y ys => simp [charsLe] at h2
  | cons x xs ih =>
    cases b with
    | nil => simp [charsLe] at h1
    | cons y ys =>
      simp only [charsLe] at h1 h2
      split at h1 <;> rename_i ha
      · rw [if_neg (Nat.lt_asymm ha), if_pos ha] at h2
        simp at h2
      · split at h1
        · simp at h1
        · rename_i ha'
          have hxy : x.toNat = y.toNat := by omega
          rw [if_neg (hxy ▸ ha'), if_neg (hxy ▸ ha)] at h2
          have : x = y := Char.ext (UInt32.ext hxy)
          rw [this, ih h1 h2]

/-- `pyStrLe` as a Prop-valued relation for use with `List.insertionSort`. -/
def pyStrLeR (s t : String) : Prop := pyStrLe s t = true

instance : DecidableRel pyStrLeR := fun s t => by
  unfold pyStrLeR; infer_instance

instance : IsTotal String pyStrLeR :=
  ⟨fun s t => charsLe_total s.data t.data⟩

instance : IsTrans String pyStrLeR :=
  ⟨fun _ _ _ h1 h2 => charsLe_trans h1 h2⟩

instance : IsAntisymm String pyStrLeR :=
  ⟨fun s t h1 h2 => by
    cases s; cases t
    exact congrArg String.mk (charsLe_antisymm h1 h2)⟩

instance : IsRefl String pyStrLeR :=
  ⟨fun s => by
    rcases charsLe_total s.data s.data with h | h <;> exact h⟩

/-- CPython `sorted` on a list of strings (code-point lexicographic). -/
def pyStrSort (l : List String) : List String :=
  List.insertionSort pyStrLeR l

/-- CPython `sorted` on a list whose first element is a string: sorts
lexicographically when all elements are strings, raises `TypeError` as
soon as a string is compared with a non-string. (Any comparison sort
gives the same sorted list here because string order is linear;
CPython's sort always compares the odd element against a string when the
list mixes strings and non-strings, which raises `TypeError`.) -/
def pySortStrHead (l : List Value) : Except PyErr (List Value) :=
  match allStrings l with
  | some ss => .ok ((pyStrSort ss).map .str)
  | none => .error .typeError

/-! ### `merge` (`channel_tool/__main__.py` lines 104-129) -/

/-- The sequence branch of `merge`: chain the two element lists, dedup by
value equality keeping first occurrences, then — when the result is
non-empty and its first element is a string — sort it. -/
def mergeSeqCore (xs ys : List Value) : Except PyErr Value := do
  let ml := pyDedup (xs ++ ys)
  match ml with
  | [] => .ok (.seq [])
  | x :: rest =>
    if isStrV x then do
      let sorted ← pySortStrHead (x :: rest)
      .ok (.seq sorted)
    else
      .ok (.seq (x :: rest))

mutual

/-- `merge(a, b)`. `a` a `Sequence` (list or string): assert `b` is a
`Sequence`, concatenate, dedup, and sort string-headed results; `a` a
dict: assert `b` is a dict and merge key by key into a copy of `a`
(recursing only when the existing value is itself a list, dict or
string); otherwise the `assert isinstance(a, dict)` fails. -/
def mergeP : Value → Value → Except PyErr Value
  | .seq xs, b =>
    match seqElems b with
    | some ys => mergeSeqCore xs ys
    | none => .error .assertionError
  | .str s, b =>
    match seqElems b with
    | some ys => mergeSeqCore (strChars s) ys
    | none => .error .assertionError
  | .map xs, b =>
    match b with
    | .map ys => do
      let m ← mergeDictLoop xs ys
      .ok (.map m)
    | _ => .error .assertionError
  | _, _ => .error .assertionError
termination_by _ b => sizeOf b

/-- The loop `for k, v in b.items()` of `merge`'s dict branch: recurse
when the key is present with a list/dict/string value, otherwise set the
key to `v` (appending new keys at the end, as a Python dict does). -/
def mergeDictLoop (m : List (String × Value)) :
    List (String × Value) → Except PyErr (List (String × Value))
  | [] => .ok m
  | (k, v) :: rest =>
    match alookup m k with
    | some cur =>
      if is_list_or_dict cur then do
        let r ← mergeP cur v
        mergeDictLoop (aset m k r) rest
      else
        mergeDictLoop (aset m k v) rest
    | none => mergeDictLoop (m ++ [(k, v)]) rest
termination_by ys => sizeOf ys

end

/-! ### `remove` (`channel_tool/__main__.py` lines 132-181) -/

mutual

/-- `remove(a, b)`. Non-string sequence `a`: keep the elements of `a`
that equal no element of `b` (iterating a string `b` yields its
characters), without recursing into elements; dict `a`: process each key
of `b` present in the copy of `a`, keeping the recursive result exactly
when it is Python-truthy and deleting the key otherwise; anything else
(scalars and strings): `None` when `a == b`, else `a` unchanged. -/
def removeP : Value → Value → Except PyErr (Option Value)
  | .seq xs, b =>
    match seqElems b with
    | some ys => .ok (some (.seq (xs.filter fun elt => ¬ ys.any fun filt => pyEq elt filt)))
    | none => .error .assertionError
  | .map xs, b =>
    match b with
    | .map ys => do
      let m ← removeDictLoop xs ys
      .ok (some (.map m))
    | _ => .error .assertionError
  | a, b => if pyEq a b then .ok none else .ok (some a)
termination_by _ b => sizeOf b

/-- The loop `for k in b.keys()` of `remove`'s dict branch: skip absent
keys; otherwise run `remove` on the two values and keep the result at
the key iff it is truthy (`if filtered:`), deleting the key otherwise. -/
def removeDictLoop (m : List (String × Value)) :
    List (String × Value) → Except PyErr (List (String × Value))
  | [] => .ok m
  | (k, w) :: rest =>
    match alookup m k with
    | none => removeDictLoop m rest
    | some v => do
      let r ← removeP v w
      match r with
      | some rv =>
        if truthy rv then removeDictLoop (aset m k rv) rest
        else removeDictLoop (adel m k) rest
      | none => removeDictLoop (adel m k) rest
termination_by ys => sizeOf ys

end

/-! ### `update` (`channel_tool/__main__.py` lines 233-289) -/

/-- A compiled predicate as passed to `update`: a function from a config
dict to a boolean, which may raise (e.g. `KeyError`). -/
def PredFun : Type := Value → Except PyErr Bool

/-- `all(comparison_function(config) for ...)`: evaluate predicates left
to right, short-circuiting on the first `False`. -/
def allPreds : List PredFun → Value → Except PyErr Bool
  | [], _ => .ok true
  | p :: ps, cfg => do
    let b ← p cfg
    if b then allPreds ps cfg else .ok false

/-- `all(isinstance(n, dict) for n in chain(current_config, config_updates))`. -/
def allDicts (l : List Value) : Bool :=
  l.all isMapV

/-- The sequence branch of `update` when `config_updates` is a string
`t`: the all-dicts test over `chain(current_config, t)` passes only when
`t` is empty (a string element is never a dict), in which case
`config_updates[0]` raises `IndexError`; otherwise `config_updates` is
returned wholesale. No recursion can occur. -/
def updateSeqStrB (xs : List Value) (t : String) : Except PyErr Value :=
  if allDicts (xs ++ strChars t) then .error .indexError
  else .ok (.str t)

mutual

/-- `update(current_config, config_updates, comparison_functions)`.
Sequence `current` (list or string): assert `updates` is a sequence; if
every element of both is a dict, apply `updates[0]` as a field template
to each element of `current` passing all predicates (raising
`IndexError` when `updates` has no element); otherwise return `updates`
wholesale. Dict `current`: assert `updates` is a dict and, for each key
of `updates` that is present in `current` with a truthy update value,
recurse (with no predicates). Scalar `current`: return `updates`. -/
def updateP : Value → Value → List PredFun → Except PyErr Value
  | .seq xs, .seq ys, preds => updateSeqCore xs ys preds
  | .seq xs, .str t, _ => updateSeqStrB xs t
  | .seq _, _, _ => .error .assertionError
  | .str s, .seq ys, preds => updateSeqCore (strChars s) ys preds
  | .str s, .str t, _ => updateSeqStrB (strChars s) t
  | .str _, _, _ => .error .assertionError
  | .map xs, .map ys, _ => do
    let m ← updateDictLoop xs ys
    .ok (.map m)
  | .map _, _, _ => .error .assertionError
  | _, b, _ => .ok b
termination_by _ b _ => (sizeOf b, 4, 0)

/-- The sequence branch body of `update` when both sides are lists:
`xs`/`ys` are the elements of `current`/`updates`; when they are not all
dicts, `config_updates` (i.e. `.seq ys`) is returned wholesale. -/
def updateSeqCore (xs ys : List Value) (preds : List PredFun) :
    Except PyErr Value :=
  if allDicts (xs ++ ys) then
    match ys with
    | [] => .error .indexError
    | cu :: _ =>
      match cu with
      | .map cue => do
        let els ← updateElems xs cue preds
        .ok (.seq els)
      | _ => .error .assertionError
  else
    .ok (.seq ys)
termination_by (sizeOf ys, 3, 0)

/-- The loop `for config in current_config` of `update`'s sequence
branch: untouched elements pass through; elements satisfying all
predicates have the update template applied field by field. -/
def updateElems (els : List Value) (cue : List (String × Value))
    (preds : List PredFun) : Except PyErr (List Value) :=
  match els with
  | [] => .ok []
  | e :: rest =>
    match e with
    | .map cfg => do
      let ok ← allPreds preds e
      if ok then do
        let cfg' ← updateFields cfg cue preds
        let tail ← updateElems rest cue preds
        .ok (.map cfg' :: tail)
      else do
        let tail ← updateElems rest cue preds
        .ok (e :: tail)
    | _ => do
      let tail ← updateElems rest cue preds
      .ok (e :: tail)
termination_by (sizeOf cue, 2, sizeOf els)

/-- The loop `for field_name in config_update` on one matching element:
fields absent from the element or mapped to `None` in the template are
skipped; other fields are recursively updated (with the same
predicates). The source tests membership before the `is None` skip;
both tests are pure `continue`s, so matching the `None` pattern first is
the same function. -/
def updateFields (cfg : List (String × Value)) (cue : List (String × Value))
    (preds : List PredFun) : Except PyErr (List (String × Value)) :=
  match cue with
  | [] => .ok cfg
  | (_, .null) :: rest => updateFields cfg rest preds
  | (f, uv) :: rest =>
    match alookup cfg f with
    | none => updateFields cfg rest preds
    | some cv => do
      let r ← updateP cv uv preds
      updateFields (aset cfg f r) rest preds
termination_by (sizeOf cue, 1, 0)

/-- The loop `for key in config_updates` of `update`'s dict branch:
keys present in `current` with truthy update values are recursively
updated (dropping the predicate list, as the source call does). -/
def updateDictLoop (cur : List (String × Value)) :
    List (String × Value) → Except PyErr (List (String × Value))
  | [] => .ok cur
  | (k, uv) :: rest =>
    match alookup cur k with
    | some cv =>
      if truthy uv then do
        let r ← updateP cv uv []
        updateDictLoop (aset cur k r) rest
      else
        updateDictLoop cur rest
    | none => updateDictLoop cur rest
termination_by ys => (sizeOf ys, 0, 0)

end

/-! ### `compile_predicate` (`channel_tool/__main__.py` lines 184-230) -/

/-- `str.split(" ")` on the character list: split at every single
space, producing empty tokens between consecutive spaces (this is
CPython's explicit-separator split). -/
def splitChar : List Char → List (List Char)
  | [] => [[]]
  | c :: rest =>
    match splitChar rest with
    | h :: t => if c = ' ' then [] :: h :: t else (c :: h) :: t
    | [] => [[c]]

/-- `str_predicate.split(" ")`. -/
def pySplitSpace (s : String) : List String :=
  (splitChar s.data).map fun cs => String.mk cs

/-- The comparator tokens, in the order of `comparator_to_lambda`. -/
inductive Cmp where
  | le | ge | lt | gt | eq | ne
deriving Repr, DecidableEq

/-- Membership/lookup in `comparator_to_lambda` by token. -/
def cmpOfToken : String → Option Cmp
  | "<=" => some .le
  | ">=" => some .ge
  | "<" => some .lt
  | ">" => some .gt
  | "==" => some .eq
  | "!=" => some .ne
  | _ => none

/-- `VALID_COMPARATORS = " ".join(comparator_to_lambda.keys())`. -/
def VALID_COMPARATORS : String := "<= >= < > == !="

/-- The target value of a predicate: `float(tok)` when that succeeds,
else the literal token string. -/
inductive PredTarget where
  | num : ℚ → PredTarget
  | strv : String → PredTarget
deriving Repr, DecidableEq

/-- All characters are ASCII digits, returning the value. -/
def digitsToNat : List Char → Option Nat
  | [] => none
  | cs =>
    cs.foldl (fun acc c =>
      acc.bind fun n => if c.isDigit then some (10 * n + (c.toNat - 48)) else none)
      (some 0)

/-- Model of CPython `float(tok)` for the token shapes the tool meets:
an optional sign, then digits with an optional decimal point
(`"12"`, `"-3.5"`, `"+.25"`, `"7."`). Other accepted spellings of CPython
floats (exponents, `inf`, `nan`, surrounding whitespace) are not needed
by any claim: the claims depend only on whether parsing raises
`ValueError`, which this parser models by returning `none`. -/
def pyFloatParse (s : String) : Option ℚ :=
  let cs := s.data
  let signAndRest : Int × List Char :=
    match cs with
    | '-' :: t => (-1, t)
    | '+' :: t => (1, t)
    | _ => (1, cs)
  let body := signAndRest.2
  let intPart := body.takeWhile fun c => c ≠ '.'
  let rest := body.dropWhile fun c => c ≠ '.'
  match rest with
  | [] => (digitsToNat intPart).map fun n => (signAndRest.1 * n : ℚ)
  | '.' :: frac =>
    if intPart.isEmpty && frac.isEmpty then none
    else if frac.any (fun c => ¬ c.isDigit) then none
    else
      let ip : ℚ := match digitsToNat intPart with
        | some n => (n : ℚ)
        | none => 0
      let fp : ℚ := match digitsToNat frac with
        | some n => (n : ℚ) / ((10 : ℚ) ^ frac.length)
        | none => 0
      if intPart.isEmpty && ¬ frac.isEmpty && (digitsToNat frac).isNone then none
      else if ¬ intPart.isEmpty && (digitsToNat intPart).isNone then none
      else some (signAndRest.1 * (ip + fp))
  | _ => none

/-- The data captured by the closure `predicate_func` that
`compile_predicate` returns: the field name, the comparator function and
the parsed target value. -/
structure CompiledPred where
  fieldName : String
  comparator : Cmp
  target : PredTarget
deriving Repr, DecidableEq

/-- `compile_predicate(str_predicate)`: split on single spaces;
`predicate[1]` / `predicate[2]` raise `IndexError` when missing (the
`except ValueError` around `float` does not catch `IndexError`); an
unrecognized comparator raises `ValueError`; otherwise a predicate
closure is returned — tokens beyond the third are ignored. -/
def compile_predicate (str_predicate : String) : Except PyErr CompiledPred :=
  let predicate := pySplitSpace str_predicate
  match predicate.get? 1 with
  | none => .error .indexError
  | some comparator =>
    match predicate.get? 2 with
    | none => .error .indexError
    | some third =>
      let target : PredTarget :=
        match pyFloatParse third with
        | some q => .num q
        | none => .strv third
      match cmpOfToken comparator with
      | none =>
        .error (.valueError ("Invalid comparator " ++ comparator ++
          ". Valid options are: " ++ VALID_COMPARATORS))
      | some c => .ok ⟨predicate.headI, c, target⟩

/-! ### Channel naming (`channel_tool/naming.py`) -/

/-- The classification-annotation bundle of a channel, as read by
`class_annos_to_name`. The numeric annotations (`bandwidth`, `pls`,
`mid_freq`) are kept as the strings that Python's `str()` produces for
them, which is all the naming code uses; `jira_ticket` is read with
`.get` and so may be absent. -/
structure ClassAnnos where
  space_ground_uhf : Bool
  ground_space_uhf : Bool
  space_ground_sband : Bool
  ground_space_sband : Bool
  space_ground_xband : Bool
  provider : String
  space_ground_sband_bandwidth_mhz : String
  space_ground_xband_bandwidth_mhz : String
  space_ground_sband_encoding : String
  space_ground_sband_dvbs2x_pls : String
  space_ground_xband_dvbs2x_pls : String
  space_ground_sband_mid_freq_mhz : String
  adcs_pointing : String
  jira_ticket : Option String
deriving Repr, DecidableEq

/-- `KNOWN_PREFIX_MAP`, in source order: major-class name keyed by the
5-tuple (space_ground_uhf, ground_space_uhf, space_ground_sband,
ground_space_sband, space_ground_xband). -/
def KNOWN_PREFIX_MAP : List (String × (Bool × Bool × Bool × Bool × Bool)) :=
  [ ("U_U_BIDIR", (true, true, false, false, false)),
    ("S_U_BIDIR", (true, true, true, false, false)),
    ("S_TXO", (false, false, true, false, false)),
    ("X_TXO", (false, false, false, false, true)),
    ("X_S_BIDIR", (false, false, false, true, true)) ]

/-- The 5-tuple of radio-direction booleans of a bundle. -/
def bandBooleans (a : ClassAnnos) : Bool × Bool × Bool × Bool × Bool :=
  (a.space_ground_uhf, a.ground_space_uhf, a.space_ground_sband,
   a.ground_space_sband, a.space_ground_xband)

/-- The `for known_prefix, prefix_booleans_tuple in KNOWN_PREFIX_MAP.items()`
loop: first (only) exact tuple match, else `None`. -/
def findMajorClass (t : Bool × Bool × Bool × Bool × Bool) :
    Option String :=
  (KNOWN_PREFIX_MAP.find? fun e => e.2 = t).map Prod.fst

/-- `generate_prov_section`. -/
def generate_prov_section (a : ClassAnnos) : String :=
  "_" ++ a.provider

/-- `generate_bw_section`. -/
def generate_bw_section (a : ClassAnnos) : String :=
  if a.space_ground_sband then "_BW" ++ a.space_ground_sband_bandwidth_mhz
  else if a.space_ground_xband then "_BW" ++ a.space_ground_xband_bandwidth_mhz
  else ""

/-- `generate_enc_section`. -/
def generate_enc_section (a : ClassAnnos) : String :=
  if a.space_ground_sband then
    if a.space_ground_sband_encoding ≠ "DVBS2X" then "_LEG"
    else "_P" ++ a.space_ground_sband_dvbs2x_pls
  else if a.space_ground_xband then "_P" ++ a.space_ground_xband_dvbs2x_pls
  else ""

/-- `str.replace(c, r)` for one-character patterns: replace every
occurrence. -/
def replaceChar (s : String) (c r : Char) : String :=
  String.mk (s.data.map fun x => if x = c then r else x)

/-- `generate_freq_section` (the stored decimal point becomes `_`). -/
def generate_freq_section (a : ClassAnnos) : String :=
  if a.space_ground_sband then
    "_F" ++ replaceChar a.space_ground_sband_mid_freq_mhz '.' '_'
  else ""

/-- `generate_adcs_section`. -/
def generate_adcs_section (a : ClassAnnos) : String :=
  if a.adcs_pointing = "NADIR" then "" else "_" ++ a.adcs_pointing

/-- `generate_jira_section` (`class_annos.get("jira_ticket", None)` with a
truthiness test, so an absent or empty ticket gives no section). -/
def generate_jira_section (a : ClassAnnos) : String :=
  match a.jira_ticket with
  | some t => if t ≠ "" then "_JIRA_" ++ replaceChar t '-' '_' else ""
  | none => ""

/-- `class_annos_to_name`: pick the major-class name by exact 5-tuple
match (a `ChannelNamingError` when none matches, since the names in the
table are non-empty and hence truthy) and append the six sections in
source order. -/
def class_annos_to_name (a : ClassAnnos) : Except PyErr String :=
  match findMajorClass (bandBooleans a) with
  | none => .error (.namingError
      "No known major class prefix for classification annotations")
  | some mc =>
    .ok (mc ++ generate_prov_section a ++ generate_bw_section a ++
      generate_enc_section a ++ generate_freq_section a ++
      generate_adcs_section a ++ generate_jira_section a)

/-! ### Validation rule engine
(`channel_tool/validation_rules/__init__.py` and
`channel_tool/validation.py`) -/

/-- The immutable snapshot handed to every rule invocation
(`ValidationRuleInput.__init__`); `channel_id_to_class_annos` is the
derived map built in the constructor from the GS templates. -/
structure ValidationRuleInput where
  sat_templates_file : String
  sat_templates : List (String × Value)
  sat_configs : List (String × List (String × Value))
  gs_templates_file : String
  gs_templates : List (String × Value)
  gs_configs : List (String × List (String × Value))
  shared_constraint_sets : List (String × Value)
  channel_id_to_class_annos : List (String × Value)

/-- `ValidationRuleMode`. -/
inductive ValidationRuleMode where
  | ENFORCE | COMPLAIN
deriving Repr, DecidableEq

/-- `str(mode)` as used in the warning/error format strings. -/
def modeStr : ValidationRuleMode → String
  | .ENFORCE => "ValidationRuleMode.ENFORCE"
  | .COMPLAIN => "ValidationRuleMode.COMPLAIN"

/-- `ValidationRuleScope`. -/
inductive ValidationRuleScope where
  | GROUNDSTATION_TEMPLATE_CHANNEL
  | SATELLITE_TEMPLATE_CHANNEL
  | GROUNDSTATION_CHANNEL
  | SATELLITE_CHANNEL
  | GROUNDSTATION
  | SATELLITE
  | GENERAL
deriving Repr, DecidableEq

/-- `ValidationRuleEnv` (a string-valued enum). -/
inductive ValidationRuleEnv where
  | PRODUCTION_ONLY | STAGING_ONLY
deriving Repr, DecidableEq

/-- The `.value` of a `ValidationRuleEnv` member. -/
def ValidationRuleEnv.value : ValidationRuleEnv → String
  | .PRODUCTION_ONLY => "production"
  | .STAGING_ONLY => "staging"

/-- `ValidationRuleViolatedError` (a value, not a raised exception). -/
structure ValidationRuleViolatedError where
  description : String
  mode : ValidationRuleMode
  scope : ValidationRuleScope
  violation_cases : List String
deriving Repr, DecidableEq

/-- A registered `ValidationRule`: module, name, the wrapped rule
function, and the `_arg_rule_env` attribute that the decorator sets on
the wrapper. A rule function may raise (e.g. `KeyError` from the
class-annotation lookup in the wrapper), hence the `Except`. -/
structure ValidationRule where
  module : String
  name : String
  function : ValidationRuleInput →
    Except PyErr (Option ValidationRuleViolatedError)
  argRuleEnv : Option ValidationRuleEnv

/-- What a rule body returns: `True`/`False` or a descriptive string. -/
inductive RuleRes where
  | bool : Bool → RuleRes
  | str : String → RuleRes

/-- `interpret_rule_result`: `True` adds nothing; `False` adds the
prefix; a string adds `"<prefix>: <string>"`. (Only `rule_result == True`
is special-cased in the source.) -/
def interpret_rule_result (violation_cases : List String)
    (rule_result : RuleRes) (pre : String) : List String :=
  match rule_result with
  | .bool true => violation_cases
  | .bool false => violation_cases ++ [pre]
  | .str s => violation_cases ++ [pre ++ ": " ++ s]

/-- `ENVS` from `channel_tool/util.py`. -/
def ENVS : List String := ["staging", "production"]

/-- `termcolor.colored` for the colors the engine uses. -/
def colored (s c : String) : String :=
  let code := if c = "green" then "32" else if c = "red" then "31"
    else if c = "yellow" then "33" else "0"
  "\x1b[" ++ code ++ "m" ++ s ++ "\x1b[0m"

/-- `results[key] = value` on a Python dict: overwrite in place when the
key exists, else append. -/
def upsertA {α : Type} (l : List (String × α)) (k : String) (v : α) :
    List (String × α) :=
  if l.any (fun kv => kv.1 = k) then
    l.map fun kv => if kv.1 = k then (k, v) else kv
  else
    l ++ [(k, v)]

/-- `run_validation_rule`: print the rule header, invoke the rule
function, print PASS/FAIL. Returns the printed lines and the result
(or the propagated exception, after the header was printed). -/
def run_validation_rule (rule : ValidationRule)
    (input : ValidationRuleInput) :
    List String × Except PyErr (Option ValidationRuleViolatedError) :=
  let header := "    Rule " ++ rule.name ++ " ... "
  match rule.function input with
  | .ok none => ([header, colored "PASS" "green"], .ok none)
  | .ok (some v) => ([header, colored "FAIL" "red"], .ok (some v))
  | .error e => ([header], .error e)

/-- One row of the `results` dict: the rule and its result. -/
abbrev RuleRow : Type := ValidationRule × Option ValidationRuleViolatedError

/-- The rule loop of `run_validation_rules`: iterate the rules of one
module, accumulating printed lines and the keyed `results` entries; a
raising rule propagates immediately. -/
def runModuleRules (input : ValidationRuleInput) :
    List ValidationRule → List String → List (String × RuleRow) →
    List String × Except PyErr (List (String × RuleRow))
  | [], lines, results => (lines, .ok results)
  | rule :: rest, lines, results =>
    let (rlines, r) := run_validation_rule rule input
    match r with
    | .error e => (lines ++ rlines, .error e)
    | .ok o =>
      runModuleRules input rest (lines ++ rlines)
        (upsertA results (rule.module ++ "." ++ rule.name) (rule, o))

/-- The module loop of `run_validation_rules`. -/
def runRulesLoop (input : ValidationRuleInput) :
    List (String × List ValidationRule) → List String →
    List (String × RuleRow) →
    List String × Except PyErr (List (String × RuleRow))
  | [], lines, results => (lines, .ok results)
  | (m, rs) :: rest, lines, results =>
    match runModuleRules input rs (lines ++ ["  Module " ++ m]) results with
    | (lines', .error e) => (lines', .error e)
    | (lines', .ok results') => runRulesLoop input rest lines' results'

/-- The `WARN` block printed for one COMPLAIN failure. -/
def warnLine (rule : ValidationRule) (v : ValidationRuleViolatedError) :
    String :=
  colored "WARN" "yellow" ++ ": Rule " ++ rule.name ++ " failed:\n\tMode: " ++
    modeStr v.mode ++ "\n\tModule: " ++ rule.module ++ "\n\tDescription: " ++
    v.description ++ "\n\tViolation cases: \n\t - " ++
    String.intercalate "\n\t - " v.violation_cases

/-- The `ERROR` block printed for one ENFORCE failure. -/
def errorLine (rule : ValidationRule) (v : ValidationRuleViolatedError) :
    String :=
  colored "ERROR" "red" ++ ": " ++ rule.name ++ " failed:\n\tMode: " ++
    modeStr v.mode ++ "\n\tModule: " ++ rule.module ++ "\n\tDescription: " ++
    v.description ++ "\n\tViolation cases: \n\t - " ++
    String.intercalate "\n\t - " v.violation_cases

/-- The message of the `ValidationError` that `run_validation_rules`
raises when at least one ENFORCE rule failed. -/
def ENFORCE_FAILURE_MESSAGE : String :=
  "One or more enforced validation rules failed"

/-- How a `run_validation_rules` call ends: normally, with a rule's own
exception, or with the aggregated `ValidationError`. -/
inductive RunOutcome where
  | ok : RunOutcome
  | pyError : PyErr → RunOutcome
  | validationError : String → RunOutcome
deriving Repr, DecidableEq

/-- `run_validation_rules(validation_rules, validation_rule_input)`:
run every rule of every module (no short-circuiting), then print one
WARN block per COMPLAIN failure and one ERROR block per ENFORCE
failure, and finally raise `ValidationError` with a fixed generic
message iff any ENFORCE failure exists. Returns the printed lines in
order together with the outcome. -/
def run_validation_rules (validation_rules : List (String × List ValidationRule))
    (input : ValidationRuleInput) : List String × RunOutcome :=
  match runRulesLoop input validation_rules [] [] with
  | (lines, .error e) => (lines, .pyError e)
  | (lines, .ok results) =>
    let fail_results : List (String × ValidationRule × ValidationRuleViolatedError) :=
      results.filterMap fun kv =>
        match kv.2.2 with
        | some v => some (kv.1, kv.2.1, v)
        | none => none
    let complain_fail_results := fail_results.filter
      fun x => x.2.2.mode = ValidationRuleMode.COMPLAIN
    let warnLines := complain_fail_results.map fun x => warnLine x.2.1 x.2.2
    let enforce_fail_results := fail_results.filter
      fun x => x.2.2.mode = ValidationRuleMode.ENFORCE
    let errLines := enforce_fail_results.map fun x => errorLine x.2.1 x.2.2
    (lines ++ warnLines ++ errLines,
      if enforce_fail_results.length > 0 then
        .validationError ENFORCE_FAILURE_MESSAGE
      else
        .ok)

/-- `get_validation_rules(rule_module_filter, rule_function_filter)`:
keep the rules passing both filters, dropping modules left empty
(registry iteration order preserved, as for a Python dict). -/
def get_validation_rules (registry : List (String × List ValidationRule))
    (rule_module_filter rule_function_filter : ValidationRule → Bool) :
    List (String × List ValidationRule) :=
  registry.filterMap fun mr =>
    let matching := mr.2.filter fun r =>
      rule_module_filter r && rule_function_filter r
    if matching.isEmpty then none else some (mr.1, matching)

/-- `filter_validation_rules_by_env`: a rule with no `_arg_rule_env`
always survives; one with a restriction survives exactly when the
restriction's value equals the target environment (others are logged as
filtered out); modules left empty are dropped. -/
def filter_validation_rules_by_env
    (validation_rules : List (String × List ValidationRule))
    (target_environment : String) : List (String × List ValidationRule) :=
  validation_rules.filterMap fun mr =>
    let module_env_rules := mr.2.filter fun r =>
      match r.argRuleEnv with
      | none => true
      | some e => e.value = target_environment
    if module_env_rules.isEmpty then none else some (mr.1, module_env_rules)

/-- The rule-running slice of `validate_all`
(`channel_tool/validation.py` lines 64-206): the selected rules are
computed once by `get_validation_rules` (line 74) and the very same
collection is passed to `run_validation_rules` for every environment in
`ENVS` (line 205); `filter_validation_rules_by_env` is not called
anywhere in the repository. `inputs` supplies the per-environment
`ValidationRuleInput` built from the schema-checked configs. -/
def validateAllRuleRuns (registry : List (String × List ValidationRule))
    (rule_module_filter rule_function_filter : ValidationRule → Bool)
    (inputs : String → ValidationRuleInput) :
    List (String × (List String × RunOutcome)) :=
  let validation_rules :=
    get_validation_rules registry rule_module_filter rule_function_filter
  ENVS.map fun env => (env, run_validation_rules validation_rules (inputs env))

/-! ## Claims -/

/-- A non-string sequence. -/
def isSeqV : Value → Bool
  | .seq _ => true
  | _ => false

/-- A container-shape mismatch in the sense of the spec: a mapping on one
side and a sequence (strings included) on the other, or a scalar on one
side and a container on the other. -/
def shapeMismatch (a b : Value) : Bool :=
  (isMapV a && isSeqLike b) || (isSeqLike a && isMapV b) ||
    (isScalarV a && ¬ isScalarV b) || (¬ isScalarV a && isScalarV b)

/-- C4 counterexample: on the mismatch scalar-vs-sequence, `remove`
returns its first argument unchanged instead of raising, and on
scalar-vs-mapping, `update` silently replaces the scalar with the
mapping — the claim says all three functions raise or return an error
on every such mismatch. -/
theorem remove_update_mismatch_counterexample :
    shapeMismatch (.int 1) (.seq [.int 1]) = true ∧
    removeP (.int 1) (.seq [.int 1]) = .ok (some (.int 1)) ∧
    shapeMismatch (.int 1) (.map [("a", .int 2)]) = true ∧
    updateP (.int 1) (.map [("a", .int 2)]) [] = .ok (.map [("a", .int 2)]) := by
  refine ⟨rfl, ?_, rfl, ?_⟩
  · simp [removeP, pyEq]
  · simp [updateP]

/-- C4 amended: on a container-shape mismatch, `merge` always raises
(`AssertionError`); `remove` raises exactly when its first argument is a
non-string sequence or a mapping, and otherwise (scalar or string first
argument) silently returns the first argument unchanged; `update` raises
exactly when its first argument is a sequence, string or mapping, and
otherwise silently returns its second argument, replacing the scalar. -/
theorem mismatch_behaviour (a b : Value) (preds : List PredFun)
    (h : shapeMismatch a b = true) :
    (∃ e, mergeP a b = .error e) ∧
    (if isSeqV a || isMapV a then ∃ e, removeP a b = .error e
     else removeP a b = .ok (some a)) ∧
    (if is_list_or_dict a then ∃ e, updateP a b preds = .error e
     else updateP a b preds = .ok b) := by
  cases a <;> cases b <;>
    simp_all [shapeMismatch, isMapV, isSeqLike, isScalarV, is_list_or_dict,
      isSeqV, mergeP, removeP, updateP, seqElems, pyEq]

/-- Witness for `mismatch_behaviour` at the concrete mismatch
`1` vs `[]`. -/
theorem mismatch_behaviour_witness :
    shapeMismatch (.int 1) (.seq []) = true ∧
    ((∃ e, mergeP (.int 1) (.seq []) = .error e) ∧
     (if isSeqV (.int 1) || isMapV (.int 1) then
        ∃ e, removeP (.int 1) (.seq []) = .error e
      else removeP (.int 1) (.seq []) = .ok (some (.int 1))) ∧
     (if is_list_or_dict (.int 1) then
        ∃ e, updateP (.int 1) (.seq []) [] = .error e
      else updateP (.int 1) (.seq []) [] = .ok (.seq []))) :=
  ⟨rfl, mismatch_behaviour (.int 1) (.seq []) [] rfl⟩

/-- C7 counterexample: `"x == a b"` has four space-separated tokens, yet
`compile_predicate` returns a predicate (field `x`, comparator `==`,
string target `"a"`) instead of failing — the fourth token is silently
ignored. -/
theorem compile_predicate_four_tokens_counterexample :
    (pySplitSpace "x == a b").length = 4 ∧
    compile_predicate "x == a b" = .ok ⟨"x", .eq, .strv "a"⟩ :=
  ⟨rfl, rfl⟩

/-- `split(" ")` never returns an empty token list. -/
theorem splitChar_ne_nil (cs : List Char) : splitChar cs ≠ [] := by
  cases cs with
  | nil => simp [splitChar]
  | cons c rest =>
    simp only [splitChar]
    cases h : splitChar rest with
    | nil => simp
    | cons h' t => by_cases hc : c = ' ' <;> simp [hc]

/-- C7 amended: `compile_predicate` raises `IndexError` whenever the
input has fewer than three space-separated tokens; with at least three
tokens it raises `ValueError` for an unrecognized comparator token and
otherwise returns the predicate built from the first three tokens only —
in particular any two inputs sharing their first three tokens compile
identically, so extra tokens are ignored rather than rejected. -/
theorem compile_predicate_token_behaviour (s : String) :
    ((pySplitSpace s).length < 3 → compile_predicate s = .error .indexError) ∧
    (∀ c t, (pySplitSpace s).get? 1 = some c → (pySplitSpace s).get? 2 = some t →
      (cmpOfToken c = none →
        compile_predicate s = .error (.valueError ("Invalid comparator " ++ c ++
          ". Valid options are: " ++ VALID_COMPARATORS))) ∧
      (∀ cv, cmpOfToken c = some cv →
        compile_predicate s = .ok ⟨(pySplitSpace s).headI, cv,
          match pyFloatParse t with
          | some q => .num q
          | none => .strv t⟩)) ∧
    (∀ s', (pySplitSpace s').take 3 = (pySplitSpace s).take 3 →
      compile_predicate s' = compile_predicate s) := by
  refine ⟨?_, ?_, ?_⟩
  · intro h
    simp only [compile_predicate]
    cases h1 : (pySplitSpace s).get? 1 with
    | none => rfl
    | some c =>
      cases h2 : (pySplitSpace s).get? 2 with
      | none => rfl
      | some t =>
        obtain ⟨hlt, -⟩ := List.get?_eq_some.mp h2
        omega
  · intro c t h1 h2
    constructor
    · intro hc
      simp only [compile_predicate, h1, h2, hc]
    · intro cv hc
      simp only [compile_predicate, h1, h2, hc]
  · intro s' hts
    have hne : pySplitSpace s ≠ [] := by
      simp only [pySplitSpace]
      intro h
      exact splitChar_ne_nil _ (List.map_eq_nil_iff.mp h)
    have hne' : pySplitSpace s' ≠ [] := by
      simp only [pySplitSpace]
      intro h
      exact splitChar_ne_nil _ (List.map_eq_nil_iff.mp h)
    have h0 : (pySplitSpace s').headI = (pySplitSpace s).headI := by
      cases hs : pySplitSpace s with
      | nil => exact absurd hs hne
      | cons a l =>
        cases hs' : pySplitSpace s' with
        | nil => exact absurd hs' hne'
        | cons a' l' =>
          rw [hs, hs'] at hts
          simp [List.take] at hts
          simp [hts.1]
    have h1 : (pySplitSpace s').get? 1 = (pySplitSpace s).get? 1 := by
      have a1 := List.get?_take (l := pySplitSpace s') (by omega : (1:ℕ) < 3)
      have a2 := List.get?_take (l := pySplitSpace s) (by omega : (1:ℕ) < 3)
      rw [← a1, hts, a2]
    have h2 : (pySplitSpace s').get? 2 = (pySplitSpace s).get? 2 := by
      have a1 := List.get?_take (l := pySplitSpace s') (by omega : (2:ℕ) < 3)
      have a2 := List.get?_take (l := pySplitSpace s) (by omega : (2:ℕ) < 3)
      rw [← a1, hts, a2]
    simp only [compile_predicate, h0, h1, h2]

/-- Witness for `compile_predicate_token_behaviour`: a two-token input
raises `IndexError`, and a four-token input compiles exactly as its
three-token truncation does. -/
theorem compile_predicate_token_behaviour_witness :
    ((pySplitSpace "x <").length < 3 ∧
      compile_predicate "x <" = .error .indexError) ∧
    ((pySplitSpace "x == a b extra").take 3 =
        (pySplitSpace "x == a b").take 3 ∧
      compile_predicate "x == a b extra" = compile_predicate "x == a b") :=
  ⟨⟨by decide, (compile_predicate_token_behaviour "x <").1 (by decide)⟩,
   ⟨by decide, (compile_predicate_token_behaviour "x == a b").2.2 "x == a b extra"
      (by decide)⟩⟩

/-- `pyDedup` keeps the first element in place. -/
theorem pyDedup_cons (x : Value) (l : List Value) :
    pyDedup (x :: l) = x :: pyDedupGo [x] l := by
  simp [pyDedup, pyDedupGo, pyMem]

/-- C10: merging a non-empty sequence whose first element is not a string
with a string does not raise: the string's characters are chained after
the sequence's elements and deduplicated by first occurrence (and no
sort happens, since the first element is not a string); consequently a
mapping holding such a sequence at a key, merged with a mapping holding
a string at that key, splices the string's characters into the stored
sequence. -/
theorem merge_seq_with_string (x : Value) (t : List Value) (s : String)
    (hx : isStrV x = false) :
    mergeP (.seq (x :: t)) (.str s) =
      .ok (.seq (pyDedup ((x :: t) ++ strChars s))) ∧
    ∀ (k : String), mergeP (.map [(k, .seq (x :: t))]) (.map [(k, .str s)]) =
      .ok (.map [(k, .seq (pyDedup ((x :: t) ++ strChars s)))]) := by
  have h1 : mergeP (.seq (x :: t)) (.str s) =
      .ok (.seq (pyDedup ((x :: t) ++ strChars s))) := by
    simp only [mergeP, seqElems, mergeSeqCore, List.cons_append, pyDedup_cons, hx]
    simp [hx]
  refine ⟨h1, fun k => ?_⟩
  simp only [mergeP, mergeDictLoop, alookup, if_pos rfl, is_list_or_dict,
    isSeqLike, isMapV, Bool.true_or, if_pos, h1, aset]
  simp [Bind.bind, Except.bind, mergeDictLoop]

/-- Witness for `merge_seq_with_string` at `[1, "x"]` merged with
`"xy"`: the characters `x`, `y` are spliced in and deduplicated. -/
theorem merge_seq_with_string_witness :
    isStrV (.int 1) = false ∧
    (mergeP (.seq [.int 1, .str "x"]) (.str "xy") =
        .ok (.seq (pyDedup ([.int 1, .str "x"] ++ strChars "xy"))) ∧
      ∀ (k : String), mergeP (.map [(k, .seq [.int 1, .str "x"])])
          (.map [(k, .str "xy")]) =
        .ok (.map [(k, .seq (pyDedup ([.int 1, .str "x"] ++ strChars "xy")))])) ∧
    pyDedup ([.int 1, .str "x"] ++ strChars "xy") =
      [.int 1, .str "x", .str "y"] :=
  ⟨rfl, merge_seq_with_string (.int 1) [.str "x"] "xy" rfl,
   by simp +decide [pyDedup, pyDedupGo, pyMem, pyEq, strChars]⟩

/-- `aset` never changes the key list. -/
theorem mapKeys_aset (m : List (String × Value)) (k : String) (v : Value) :
    mapKeys (aset m k v) = mapKeys m := by
  induction m with
  | nil => rfl
  | cons kv rest ih =>
    simp only [mapKeys, aset, List.map_cons] at ih ⊢
    by_cases h : kv.1 = k <;> simp [h, ih]

/-- The dict loop of `update` never changes the key list of `current`. -/
theorem updateDictLoop_keys (ys : List (String × Value)) :
    ∀ cur m', updateDictLoop cur ys = .ok m' → mapKeys m' = mapKeys cur := by
  induction ys with
  | nil =>
    intro cur m' h
    simp only [updateDictLoop] at h
    cases h
    rfl
  | cons kv rest ih =>
    intro cur m' h
    obtain ⟨k, uv⟩ := kv
    simp only [updateDictLoop] at h
    cases hl : alookup cur k with
    | none =>
      simp only [hl] at h
      exact ih cur m' h
    | some cv =>
      simp only [hl] at h
      by_cases ht : truthy uv = true
      · rw [if_pos ht] at h
        cases hu : updateP cv uv [] with
        | error e =>
          rw [hu] at h
          simp [Bind.bind, Except.bind] at h
        | ok rv =>
          rw [hu] at h
          simp only [Bind.bind, Except.bind] at h
          rw [ih _ _ h, mapKeys_aset]
      · rw [if_neg ht] at h
        exact ih cur m' h

/-- C2: whenever `update(current, updates)` returns on two mappings, the
result is a mapping whose key list — and hence key set — is exactly that
of `current`: no key of `updates` is ever introduced. -/
theorem update_preserves_keys (cur upd : List (String × Value))
    (preds : List PredFun) (r : Value)
    (h : updateP (.map cur) (.map upd) preds = .ok r) :
    ∃ m, r = .map m ∧ mapKeys m = mapKeys cur ∧
      ∀ k, k ∈ mapKeys m ↔ k ∈ mapKeys cur := by
  simp only [updateP, Bind.bind, Except.bind] at h
  cases hl : updateDictLoop cur upd with
  | error e => rw [hl] at h; cases h
  | ok m =>
    rw [hl] at h
    cases h
    exact ⟨m, rfl, updateDictLoop_keys upd cur m hl,
      fun k => by rw [updateDictLoop_keys upd cur m hl]⟩

/-- Witness for `update_preserves_keys`: updating `{"a": 1}` with
`{"b": 5}` leaves the key list `["a"]` unchanged. -/
theorem update_preserves_keys_witness :
    updateP (.map [("a", .int 1)]) (.map [("b", .int 5)]) [] =
      .ok (.map [("a", .int 1)]) ∧
    ∃ m, Value.map [("a", .int 1)] = .map m ∧ mapKeys m = mapKeys [("a", .int 1)] ∧
      ∀ k, k ∈ mapKeys m ↔ k ∈ mapKeys [("a", .int 1)] :=
  ⟨by simp [updateP, updateDictLoop, alookup, Bind.bind, Except.bind],
   update_preserves_keys [("a", .int 1)] [("b", .int 5)] [] (.map [("a", .int 1)])
     (by simp [updateP, updateDictLoop, alookup, Bind.bind, Except.bind])⟩

/-- Looking up the set key finds the new value (when the key exists). -/
theorem alookup_aset (m : List (String × Value)) (k : String) (v : Value) :
    alookup (aset m k v) k = (alookup m k).map fun _ => v := by
  induction m with
  | nil => rfl
  | cons kv rest ih =>
    obtain ⟨k1, v1⟩ := kv
    by_cases h : k1 = k <;> simp [aset, alookup, h] <;> simpa [aset] using ih

/-- Setting another key does not change a lookup. -/
theorem alookup_aset_ne (m : List (String × Value)) {k k' : String}
    (v : Value) (h : k ≠ k') : alookup (aset m k v) k' = alookup m k' := by
  induction m with
  | nil => rfl
  | cons kv rest ih =>
    obtain ⟨k1, v1⟩ := kv
    simp only [aset, List.map_cons, alookup]
    by_cases hk' : k1 = k'
    · have hk : ¬ (k1 = k) := by rw [hk']; exact Ne.symm h
      simp [hk, hk']
      exact fun hh => absurd hh.symm h
    · simp only [if_neg hk']
      simpa [aset] using ih

/-- A deleted key is no longer found. -/
theorem alookup_adel (m : List (String × Value)) (k : String) :
    alookup (adel m k) k = none := by
  induction m with
  | nil => rfl
  | cons kv rest ih =>
    obtain ⟨k1, v1⟩ := kv
    by_cases h : k1 = k <;> simp [adel, alookup, h] <;> simpa [adel] using ih

/-- Deleting another key does not change a lookup. -/
theorem alookup_adel_ne (m : List (String × Value)) {k k' : String}
    (h : k ≠ k') : alookup (adel m k) k' = alookup m k' := by
  induction m with
  | nil => rfl
  | cons kv rest ih =>
    obtain ⟨k1, v1⟩ := kv
    by_cases hk : k1 = k
    · have hk' : ¬ (k1 = k') := by rw [hk]; exact h
      simp only [adel, List.filter_cons]
      simp [hk, hk']
      rw [show alookup ((k, v1) :: rest) k' = alookup rest k' from by
        simp [alookup, h]]
      simpa [adel] using ih
    · simp only [adel, List.filter_cons]
      by_cases hk' : k1 = k'
      · simp [hk, hk', alookup, Ne.symm h]
      · simp [hk, hk', alookup]
        simpa [adel] using ih

/-- The fate of one shared key in `remove`'s dict branch: run
`remove(a[k], b[k])`; the key keeps the result exactly when the result
is Python-truthy (`if filtered:`), and is deleted otherwise. -/
def removeKeyFate (v w : Value) : Except PyErr (Option Value) := do
  let r ← removeP v w
  match r with
  | some rv => if truthy rv then .ok (some rv) else .ok none
  | none => .ok none

/-- A key outside the key list is not found. -/
theorem alookup_not_mem (l : List (String × Value)) (k : String)
    (h : k ∉ mapKeys l) : alookup l k = none := by
  induction l with
  | nil => rfl
  | cons kv rest ih =>
    obtain ⟨k1, v1⟩ := kv
    simp only [mapKeys, List.map_cons, List.mem_cons] at h
    push_neg at h
    have h1 : ¬ (k1 = k) := fun hh => h.1 hh.symm
    simp only [alookup, if_neg h1]
    exact ih (by simpa [mapKeys] using h.2)

/-- Characterization of `remove`'s dict loop: each key of `m` not named
by `ys` is untouched; a key named by `ys` ends at the value dictated by
`removeKeyFate`. -/
theorem removeDictLoop_lookup (ys : List (String × Value)) :
    ∀ m m', (mapKeys ys).Nodup → removeDictLoop m ys = .ok m' →
    ∀ k, (alookup ys k = none → alookup m' k = alookup m k) ∧
      (∀ w, alookup ys k = some w →
        (alookup m k = none → alookup m' k = none) ∧
        (∀ v, alookup m k = some v →
          removeKeyFate v w = .ok (alookup m' k))) := by
  induction ys with
  | nil =>
    intro m m' _ h k
    simp only [removeDictLoop] at h
    cases h
    exact ⟨fun _ => rfl, fun w hw => by cases hw⟩
  | cons kv rest ih =>
    intro m m' hnd h k
    obtain ⟨k0, w0⟩ := kv
    simp only [mapKeys, List.map_cons, List.nodup_cons] at hnd
    obtain ⟨hk0, hndr⟩ := hnd
    have hrest0 : alookup rest k0 = none := alookup_not_mem rest k0 hk0
    simp only [removeDictLoop] at h
    cases hl : alookup m k0 with
    | none =>
      simp only [hl] at h
      have H := ih m m' hndr h
      by_cases hk : k = k0
      · subst hk
        refine ⟨fun habs => by simp [alookup] at habs, fun w hw => ?_⟩
        simp only [alookup, if_pos rfl] at hw
        cases hw
        refine ⟨fun _ => by rw [(H k).1 hrest0]; exact hl, fun v hv => ?_⟩
        rw [hv] at hl
        cases hl
      · have hne0 : ¬ (k0 = k) := fun hh => hk hh.symm
        have hcons : alookup ((k0, w0) :: rest) k = alookup rest k := by
          simp [alookup, hne0]
        rw [hcons]
        exact H k
    | some v0 =>
      simp only [hl] at h
      cases hr : removeP v0 w0 with
      | error e =>
        rw [hr] at h
        simp [Bind.bind, Except.bind] at h
      | ok r =>
        rw [hr] at h
        simp only [Bind.bind, Except.bind] at h
        have tail : ∀ m1 (o : Option Value), removeDictLoop m1 rest = .ok m' →
            alookup m1 k0 = o →
            (∀ k', k' ≠ k0 → alookup m1 k' = alookup m k') →
            removeKeyFate v0 w0 = .ok o →
            (alookup ((k0, w0) :: rest) k = none → alookup m' k = alookup m k) ∧
            (∀ w, alookup ((k0, w0) :: rest) k = some w →
              (alookup m k = none → alookup m' k = none) ∧
              (∀ v, alookup m k = some v →
                removeKeyFate v w = .ok (alookup m' k))) := by
          intro m1 o hloop hm1k0 hm1ne hfate
          have H := ih m1 m' hndr hloop
          by_cases hk : k = k0
          · subst hk
            refine ⟨fun habs => (by simp [alookup] at habs), fun w hw => ?_⟩
            simp only [alookup, if_pos rfl] at hw
            cases hw
            refine ⟨fun hnone => (by rw [hnone] at hl; cases hl), fun v hv => ?_⟩
            rw [hl] at hv
            cases hv
            have hm' : alookup m' k = alookup m1 k := (H k).1 hrest0
            rw [hm', hm1k0]
            exact hfate
          · have hne0 : ¬ (k0 = k) := fun hh => hk hh.symm
            have hcons : alookup ((k0, w0) :: rest) k = alookup rest k := by
              simp [alookup, hne0]
            rw [hcons]
            have hmk : alookup m1 k = alookup m k := hm1ne k hk
            refine ⟨fun hn => (by rw [(H k).1 hn, hmk]), fun w hw => ?_⟩
            obtain ⟨h1, h2⟩ := (H k).2 w hw
            exact ⟨fun hn => h1 (by rw [hmk]; exact hn),
              fun v hv => h2 v (by rw [hmk]; exact hv)⟩
        cases r with
        | none =>
          exact tail (adel m k0) none h (alookup_adel m k0)
            (fun k' hk' => alookup_adel_ne m (fun hh => hk' hh.symm))
            (by simp [removeKeyFate, hr, Bind.bind, Except.bind])
        | some rv =>
          by_cases ht : truthy rv = true
          · simp only [ht, if_true] at h
            exact tail (aset m k0 rv) (some rv) h
              (by simp [alookup_aset, hl])
              (fun k' hk' => alookup_aset_ne m rv (fun hh => hk' hh.symm))
              (by simp [removeKeyFate, hr, Bind.bind, Except.bind, ht])
          · simp only [ht, if_false, Bool.false_eq_true] at h
            exact tail (adel m k0) none h (alookup_adel m k0)
              (fun k' hk' => alookup_adel_ne m (fun hh => hk' hh.symm))
              (by simp [removeKeyFate, hr, Bind.bind, Except.bind, ht])

/-- On values that are neither non-string sequences nor mappings,
`remove` compares for equality and returns `None` on a match, else the
value unchanged. -/
theorem removeP_atom (v w : Value) (h1 : isSeqV v = false)
    (h2 : isMapV v = false) :
    removeP v w = if pyEq v w then .ok none else .ok (some v) := by
  cases v <;> simp_all [removeP, isSeqV, isMapV]

/-- C1 counterexample: `remove({"k": 0}, {"k": 1})` deletes the key even
though `0 != 1` and `0` is neither empty nor null — the truthiness test
`if filtered:` treats the falsy scalar `0` as "delete". -/
theorem remove_falsy_scalar_counterexample :
    pyEq (.int 0) (.int 1) = false ∧
    removeP (.int 0) (.int 1) = .ok (some (.int 0)) ∧
    removeP (.map [("k", .int 0)]) (.map [("k", .int 1)]) =
      .ok (some (.map [])) := by
  refine ⟨by simp [pyEq], by simp [removeP, pyEq], ?_⟩
  simp [removeP, removeDictLoop, alookup, adel, pyEq, truthy,
    Bind.bind, Except.bind]

/-- C1 amended: `remove` on two mappings returns a copy of `a` in which
keys absent from `b` are untouched and, for each key `k` of `b` present
in `a`, the recursive result `remove(a[k], b[k])` is kept exactly when it
is Python-truthy — non-null, non-empty AND not a falsy scalar (`0`,
`False`, `""`) — and the key is deleted otherwise; in particular a
scalar `a[k]` unequal to `b[k]` is kept only when `a[k]` is itself
truthy, and deleted when `a[k]` is `0`, `False` or `""`. -/
theorem remove_map_characterization (a b : List (String × Value))
    (hb : (mapKeys b).Nodup) (r : Option Value)
    (h : removeP (.map a) (.map b) = .ok r) :
    ∃ m, r = some (.map m) ∧
      (∀ k, (alookup b k = none → alookup m k = alookup a k) ∧
        (∀ w, alookup b k = some w →
          (alookup a k = none → alookup m k = none) ∧
          (∀ v, alookup a k = some v →
            removeKeyFate v w = .ok (alookup m k)))) ∧
      (∀ k v w, alookup a k = some v → alookup b k = some w →
        isSeqV v = false → isMapV v = false → pyEq v w = false →
        alookup m k = if truthy v then some v else none) := by
  simp only [removeP, Bind.bind, Except.bind] at h
  cases hl : removeDictLoop a b with
  | error e => rw [hl] at h; cases h
  | ok m =>
    rw [hl] at h
    cases h
    have H := removeDictLoop_lookup b a m hb hl
    refine ⟨m, rfl, H, fun k v w hv hw h1 h2 hne => ?_⟩
    have hfate := ((H k).2 w hw).2 v hv
    rw [removeKeyFate, removeP_atom v w h1 h2, if_neg (by simp [hne])] at hfate
    simp only [Bind.bind, Except.bind] at hfate
    by_cases ht : truthy v = true
    · simp only [ht, if_true] at hfate ⊢
      exact (Except.ok.inj hfate).symm
    · simp only [ht, if_false, Bool.false_eq_true] at hfate ⊢
      exact (Except.ok.inj hfate).symm

/-- Witness for `remove_map_characterization`: removing `{"k": 1}` from
`{"k": 5, "j": 2}` keeps the truthy unequal scalar at `"k"` and leaves
`"j"` untouched. -/
theorem remove_map_characterization_witness :
    (mapKeys [("k", Value.int 1)]).Nodup ∧
    removeP (.map [("k", .int 5), ("j", .int 2)]) (.map [("k", .int 1)]) =
      .ok (some (.map [("k", .int 5), ("j", .int 2)])) ∧
    ∃ m, (some (Value.map [("k", .int 5), ("j", .int 2)]) : Option Value) =
        some (.map m) ∧
      (∀ k, (alookup [("k", Value.int 1)] k = none →
          alookup m k = alookup [("k", Value.int 5), ("j", Value.int 2)] k) ∧
        (∀ w, alookup [("k", Value.int 1)] k = some w →
          (alookup [("k", Value.int 5), ("j", Value.int 2)] k = none →
            alookup m k = none) ∧
          (∀ v, alookup [("k", Value.int 5), ("j", Value.int 2)] k = some v →
            removeKeyFate v w = .ok (alookup m k)))) ∧
      (∀ k v w, alookup [("k", Value.int 5), ("j", Value.int 2)] k = some v →
        alookup [("k", Value.int 1)] k = some w →
        isSeqV v = false → isMapV v = false → pyEq v w = false →
        alookup m k = if truthy v then some v else none) :=
  have hr : removeP (.map [("k", .int 5), ("j", .int 2)])
      (.map [("k", .int 1)]) =
      .ok (some (.map [("k", .int 5), ("j", .int 2)])) := by
    simp [removeP, removeDictLoop, alookup, aset, pyEq, truthy,
      Bind.bind, Except.bind]
  ⟨by simp [mapKeys], hr,
   remove_map_characterization [("k", .int 5), ("j", .int 2)]
     [("k", .int 1)] (by simp [mapKeys])
     (some (.map [("k", .int 5), ("j", .int 2)])) hr⟩

/-- C5 counterexample: `["b", 1]` deduplicates to itself and contains a
non-string, so per the claim the order should be kept — but because the
first element is a string the code calls `sorted`, which raises
`TypeError` on the mixed list. -/
theorem merge_mixed_seq_counterexample :
    pyDedup ([Value.str "b", Value.int 1] ++ []) = [.str "b", .int 1] ∧
    mergeP (.seq [.str "b", .int 1]) (.seq []) = .error .typeError := by
  constructor
  · simp [pyDedup, pyDedupGo, pyMem, pyEq]
  · simp [mergeP, mergeSeqCore, seqElems, pyDedup, pyDedupGo, pyMem, pyEq,
      isStrV, pySortStrHead, allStrings, Bind.bind, Except.bind]

/-- C5 amended: `merge` on two sequences chains and deduplicates keeping
first occurrences; it then sorts exactly when the deduplicated result is
non-empty and its FIRST element is a string: an all-string result comes
back as a sorted permutation, a result with a string first element but a
non-string somewhere raises `TypeError` (CPython `sorted` on unorderable
mixed types), and a result whose first element is not a string keeps
first-occurrence order even if later elements are strings. -/
theorem merge_seq_characterization (xs ys : List Value) :
    (pyDedup (xs ++ ys) = [] → mergeP (.seq xs) (.seq ys) = .ok (.seq [])) ∧
    (∀ x t, pyDedup (xs ++ ys) = x :: t → isStrV x = false →
      mergeP (.seq xs) (.seq ys) = .ok (.seq (x :: t))) ∧
    (∀ x t ss, pyDedup (xs ++ ys) = x :: t → isStrV x = true →
      allStrings (x :: t) = some ss →
      ∃ ss', mergeP (.seq xs) (.seq ys) = .ok (.seq (ss'.map .str)) ∧
        List.Sorted pyStrLeR ss' ∧ ss'.Perm ss) ∧
    (∀ x t, pyDedup (xs ++ ys) = x :: t → isStrV x = true →
      allStrings (x :: t) = none →
      mergeP (.seq xs) (.seq ys) = .error .typeError) := by
  refine ⟨?_, ?_, ?_, ?_⟩
  · intro hd
    simp [mergeP, mergeSeqCore, seqElems, hd]
  · intro x t hd hx
    simp [mergeP, mergeSeqCore, seqElems, hd, hx]
  · intro x t ss hd hx hss
    refine ⟨List.insertionSort pyStrLeR ss, ?_, ?_, ?_⟩
    · simp [mergeP, mergeSeqCore, seqElems, hd, hx, pySortStrHead, hss,
        pyStrSort, Bind.bind, Except.bind]
    · exact List.sorted_insertionSort pyStrLeR ss
    · exact List.perm_insertionSort pyStrLeR ss
  · intro x t hd hx hss
    simp [mergeP, mergeSeqCore, seqElems, hd, hx, pySortStrHead, hss,
      Bind.bind, Except.bind]

/-- Witness for `merge_seq_characterization`: `["y","x"]` merged with
`["x","z"]` dedups to `["y","x","z"]` (string first element, all
strings) and comes back sorted. -/
theorem merge_seq_characterization_witness :
    pyDedup ([Value.str "y", Value.str "x"] ++ [Value.str "x", Value.str "z"]) =
      [.str "y", .str "x", .str "z"] ∧
    allStrings [Value.str "y", Value.str "x", Value.str "z"] =
      some ["y", "x", "z"] ∧
    (∃ ss', mergeP (.seq [.str "y", .str "x"]) (.seq [.str "x", .str "z"]) =
        .ok (.seq (ss'.map .str)) ∧
      List.Sorted pyStrLeR ss' ∧ ss'.Perm ["y", "x", "z"]) ∧
    mergeP (.seq [.str "y", .str "x"]) (.seq [.str "x", .str "z"]) =
      .ok (.seq [.str "x", .str "y", .str "z"]) :=
  have hd : pyDedup ([Value.str "y", Value.str "x"] ++
      [Value.str "x", Value.str "z"]) = [.str "y", .str "x", .str "z"] := by
    simp +decide [pyDedup, pyDedupGo, pyMem, pyEq]
  ⟨hd, rfl,
   (merge_seq_characterization [.str "y", .str "x"] [.str "x", .str "z"]).2.2.1
     (.str "y") [.str "x", .str "z"] ["y", "x", "z"] hd rfl rfl,
   by simp +decide [mergeP, mergeSeqCore, seqElems, pyDedup, pyDedupGo, pyMem,
     pyEq, isStrV, pySortStrHead, allStrings, pyStrSort, Bind.bind, Except.bind]⟩

/-- A string with a non-empty prefix is non-empty. -/
theorem append_ne_empty_left (s t : String) (h : s.length > 0) :
    s ++ t ≠ "" := by
  intro hh
  apply_fun String.length at hh
  rw [String.length_append, String.length_empty] at hh
  omega

/-- C9: `class_annos_to_name` errs exactly when the 5-tuple of
radio-direction booleans matches no entry of `KNOWN_PREFIX_MAP`, and
otherwise produces the matched major-class name followed by the
provider, bandwidth, encoding/PLS, frequency, ADCS-pointing and JIRA
sections in that fixed order; the bandwidth and encoding sections are
present iff an S-band or X-band downlink flag is set, the frequency
section iff the S-band downlink flag is set, the pointing section iff
the pointing is not the default `NADIR`, and the ticket section iff a
non-empty `jira_ticket` annotation exists. -/
theorem class_annos_naming (a : ClassAnnos) :
    ((∃ e, class_annos_to_name a = .error e) ↔
      findMajorClass (bandBooleans a) = none) ∧
    (∀ mc, findMajorClass (bandBooleans a) = some mc →
      class_annos_to_name a = .ok (mc ++ generate_prov_section a ++
        generate_bw_section a ++ generate_enc_section a ++
        generate_freq_section a ++ generate_adcs_section a ++
        generate_jira_section a)) ∧
    (generate_prov_section a ≠ "") ∧
    (generate_bw_section a = "" ↔
      (a.space_ground_sband = false ∧ a.space_ground_xband = false)) ∧
    (generate_enc_section a = "" ↔
      (a.space_ground_sband = false ∧ a.space_ground_xband = false)) ∧
    (generate_freq_section a = "" ↔ a.space_ground_sband = false) ∧
    (generate_adcs_section a = "" ↔ a.adcs_pointing = "NADIR") ∧
    (generate_jira_section a = "" ↔
      (a.jira_ticket = none ∨ a.jira_ticket = some "")) := by
  refine ⟨?_, ?_, ?_, ?_, ?_, ?_, ?_, ?_⟩
  · cases hf : findMajorClass (bandBooleans a) with
    | none => simp [class_annos_to_name, hf]
    | some mc => simp [class_annos_to_name, hf]
  · intro mc hf
    simp [class_annos_to_name, hf]
  · exact append_ne_empty_left "_" a.provider (by decide)
  · by_cases hs : a.space_ground_sband = true
    · simp only [generate_bw_section, if_pos hs]
      constructor
      · intro hh
        exact absurd hh (append_ne_empty_left "_BW" _ (by decide))
      · rintro ⟨h1, -⟩
        rw [hs] at h1
        cases h1
    · by_cases hx : a.space_ground_xband = true
      · simp only [generate_bw_section, if_neg hs, if_pos hx]
        constructor
        · intro hh
          exact absurd hh (append_ne_empty_left "_BW" _ (by decide))
        · rintro ⟨-, h2⟩
          rw [hx] at h2
          cases h2
      · simp only [generate_bw_section, if_neg hs, if_neg hx]
        simp only [Bool.not_eq_true] at hs hx
        simp [hs, hx]
  · by_cases hs : a.space_ground_sband = true
    · simp only [generate_enc_section, if_pos hs]
      constructor
      · intro hh
        split at hh
        · exact absurd hh (by decide)
        · exact absurd hh (append_ne_empty_left "_P" _ (by decide))
      · rintro ⟨h1, -⟩
        rw [hs] at h1
        cases h1
    · by_cases hx : a.space_ground_xband = true
      · simp only [generate_enc_section, if_neg hs, if_pos hx]
        constructor
        · intro hh
          exact absurd hh (append_ne_empty_left "_P" _ (by decide))
        · rintro ⟨-, h2⟩
          rw [hx] at h2
          cases h2
      · simp only [generate_enc_section, if_neg hs, if_neg hx]
        simp only [Bool.not_eq_true] at hs hx
        simp [hs, hx]
  · by_cases hs : a.space_ground_sband = true
    · simp only [generate_freq_section, if_pos hs]
      constructor
      · intro hh
        exact absurd hh (append_ne_empty_left "_F" _ (by decide))
      · intro h1
        rw [hs] at h1
        cases h1
    · simp only [generate_freq_section, if_neg hs]
      simp only [Bool.not_eq_true] at hs
      simp [hs]
  · by_cases hn : a.adcs_pointing = "NADIR"
    · simp [generate_adcs_section, hn]
    · simp only [generate_adcs_section, if_neg hn]
      constructor
      · intro hh
        exact absurd hh (append_ne_empty_left "_" _ (by decide))
      · intro h1
        exact absurd h1 hn
  · cases hj : a.jira_ticket with
    | none => simp [generate_jira_section, hj]
    | some t =>
      by_cases ht : t = ""
      · simp [generate_jira_section, hj, ht]
      · simp only [generate_jira_section, hj, if_pos ht, ne_eq, ht,
          not_false_iff, if_true]
        constructor
        · intro hh
          exact absurd hh (append_ne_empty_left "_JIRA_" _ (by decide))
        · rintro (h1 | h1)
          · cases h1
          · injection h1 with h1
            exact absurd h1 ht

/-- A concrete S-band transmit-only classification bundle, used to
instantiate the naming theorem. -/
def exampleAnnos : ClassAnnos :=
  ⟨false, false, true, false, false, "KSAT", "5", "", "DVBS2X", "39", "",
    "2022.5", "NADIR", none⟩

/-- Witness for `class_annos_naming` at a concrete S-band transmit-only
bundle: the tuple picks `S_TXO` and the sections follow in order. -/
theorem class_annos_naming_witness :
    findMajorClass (bandBooleans exampleAnnos) = some "S_TXO" ∧
    class_annos_to_name exampleAnnos =
      .ok ("S_TXO" ++ generate_prov_section exampleAnnos ++
        generate_bw_section exampleAnnos ++ generate_enc_section exampleAnnos ++
        generate_freq_section exampleAnnos ++
        generate_adcs_section exampleAnnos ++
        generate_jira_section exampleAnnos) ∧
    class_annos_to_name exampleAnnos = .ok "S_TXO_KSAT_BW5_P39_F2022_5" :=
  ⟨rfl,
   (class_annos_naming exampleAnnos).2.1 "S_TXO" rfl,
   by rfl⟩

/-- The `results` dict key of a rule: `f"{rule.module}.{rule.name}"`. -/
def ruleKey (r : ValidationRule) : String :=
  r.module ++ "." ++ r.name

/-- All rules of a selected-rules dict, in iteration order. -/
def allRules (vrs : List (String × List ValidationRule)) :
    List ValidationRule :=
  vrs.foldr (fun mr acc => mr.2 ++ acc) []

theorem allRules_cons (m : String) (rs : List ValidationRule)
    (rest : List (String × List ValidationRule)) :
    allRules ((m, rs) :: rest) = rs ++ allRules rest := rfl

/-- Inserting a fresh key appends. -/
theorem upsertA_fresh {α : Type} (l : List (String × α)) (k : String) (v : α)
    (h : ∀ kv ∈ l, kv.1 ≠ k) : upsertA l k v = l ++ [(k, v)] := by
  have hc : (l.any fun kv => kv.1 = k) = false := by
    rw [List.any_eq_false]
    intro kv hkv
    simpa using h kv hkv
  unfold upsertA
  rw [hc]
  simp

/-- When every rule of a module returns without raising, the module loop
returns all their results (keyed and upserted in order) and prints each
rule's header line. -/
theorem runModuleRules_ok (input : ValidationRuleInput)
    (out : ValidationRule → Option ValidationRuleViolatedError) :
    ∀ (rs : List ValidationRule) (lines : List String)
      (results : List (String × RuleRow)),
    (∀ r ∈ rs, r.function input = .ok (out r)) →
    ∃ newLines, runModuleRules input rs lines results =
      (lines ++ newLines,
        .ok (rs.foldl (fun res r => upsertA res (ruleKey r) (r, out r)) results)) ∧
      ∀ r ∈ rs, ("    Rule " ++ r.name ++ " ... ") ∈ newLines := by
  intro rs
  induction rs with
  | nil =>
    intro lines results _
    exact ⟨[], by simp [runModuleRules], by simp⟩
  | cons r rest ih =>
    intro lines results hok
    have hr := hok r (List.mem_cons_self r rest)
    have hrun : run_validation_rule r input =
        (("    Rule " ++ r.name ++ " ... ") ::
          (match out r with
           | none => [colored "PASS" "green"]
           | some _ => [colored "FAIL" "red"]), .ok (out r)) := by
      cases ho : out r <;> simp [run_validation_rule, hr, ho]
    obtain ⟨nl, hrec, hmem⟩ := ih
      (lines ++ (("    Rule " ++ r.name ++ " ... ") ::
        (match out r with
         | none => [colored "PASS" "green"]
         | some _ => [colored "FAIL" "red"])))
      (upsertA results (ruleKey r) (r, out r))
      (fun r' hr' => hok r' (List.mem_cons_of_mem r hr'))
    refine ⟨(("    Rule " ++ r.name ++ " ... ") ::
        (match out r with
         | none => [colored "PASS" "green"]
         | some _ => [colored "FAIL" "red"])) ++ nl, ?_, ?_⟩
    · simp only [ruleKey] at hrec
      simp only [runModuleRules, hrun, ruleKey, List.foldl_cons]
      rw [hrec]
      simp
    · intro r' hr'
      rcases List.mem_cons.mp hr' with h | h
      · subst h
        simp
      · exact List.mem_append_right _ (hmem r' h)

/-- When no rule raises, the whole module loop computes the keyed results
of all rules (in order) and prints each rule's header line. -/
theorem runRulesLoop_ok (input : ValidationRuleInput)
    (out : ValidationRule → Option ValidationRuleViolatedError) :
    ∀ (vrs : List (String × List ValidationRule)) (lines : List String)
      (results : List (String × RuleRow)),
    (∀ r ∈ allRules vrs, r.function input = .ok (out r)) →
    ∃ newLines, runRulesLoop input vrs lines results =
      (lines ++ newLines,
        .ok ((allRules vrs).foldl
          (fun res r => upsertA res (ruleKey r) (r, out r)) results)) ∧
      ∀ r ∈ allRules vrs, ("    Rule " ++ r.name ++ " ... ") ∈ newLines := by
  intro vrs
  induction vrs with
  | nil =>
    intro lines results _
    exact ⟨[], by simp [runRulesLoop, allRules], by simp [allRules]⟩
  | cons mr rest ih =>
    intro lines results hok
    obtain ⟨m, rs⟩ := mr
    rw [allRules_cons] at hok
    obtain ⟨nl1, hmod, hmem1⟩ := runModuleRules_ok input out rs
      (lines ++ ["  Module " ++ m]) results
      (fun r hr => hok r (List.mem_append_left _ hr))
    obtain ⟨nl2, hrec, hmem2⟩ := ih
      ((lines ++ ["  Module " ++ m]) ++ nl1)
      (rs.foldl (fun res r => upsertA res (ruleKey r) (r, out r)) results)
      (fun r hr => hok r (List.mem_append_right _ hr))
    refine ⟨("  Module " ++ m) :: (nl1 ++ nl2), ?_, ?_⟩
    · simp only [runRulesLoop, hmod, hrec, allRules_cons, List.foldl_append]
      simp
    · intro r hr
      rw [allRules_cons] at hr
      rcases List.mem_append.mp hr with h | h
      · exact List.mem_cons_of_mem _ (List.mem_append_left _ (hmem1 r h))
      · exact List.mem_cons_of_mem _ (List.mem_append_right _ (hmem2 r h))

/-- Folding fresh-keyed upserts is just an append of the mapped rows. -/
theorem foldl_upsert_fresh
    (out : ValidationRule → Option ValidationRuleViolatedError) :
    ∀ (rules : List ValidationRule) (acc : List (String × RuleRow)),
    (rules.map ruleKey).Nodup →
    (∀ r ∈ rules, ∀ kv ∈ acc, kv.1 ≠ ruleKey r) →
    rules.foldl (fun res r => upsertA res (ruleKey r) (r, out r)) acc =
      acc ++ rules.map fun r => (ruleKey r, (r, out r)) := by
  intro rules
  induction rules with
  | nil => intro acc _ _; simp
  | cons r rest ih =>
    intro acc hnd hfresh
    simp only [List.map_cons, List.nodup_cons] at hnd
    obtain ⟨hr0, hndr⟩ := hnd
    rw [List.foldl_cons, upsertA_fresh acc (ruleKey r) (r, out r)
      (fun kv hkv => hfresh r (List.mem_cons_self r rest) kv hkv)]
    rw [ih (acc ++ [(ruleKey r, (r, out r))]) hndr ?fresh]
    · simp
    case fresh =>
      intro r' hr' kv hkv
      rcases List.mem_append.mp hkv with h | h
      · exact hfresh r' (List.mem_cons_of_mem r hr') kv h
      · simp only [List.mem_singleton] at h
        subst h
        simp only [ne_eq]
        intro hq
        exact hr0 (hq ▸ (List.mem_map.mpr ⟨r', hr', rfl⟩))

/-- The failing rows among the keyed results of `rules`. -/
def failRowsOf (out : ValidationRule → Option ValidationRuleViolatedError)
    (rules : List ValidationRule) :
    List (String × ValidationRule × ValidationRuleViolatedError) :=
  rules.filterMap fun r =>
    match out r with
    | some v => some (ruleKey r, r, v)
    | none => none

theorem mem_failRowsOf
    (out : ValidationRule → Option ValidationRuleViolatedError)
    (rules : List ValidationRule)
    (x : String × ValidationRule × ValidationRuleViolatedError) :
    x ∈ failRowsOf out rules ↔
      ∃ r ∈ rules, out r = some x.2.2 ∧ x = (ruleKey r, r, x.2.2) := by
  constructor
  · intro hx
    obtain ⟨r, hr, heq⟩ := List.mem_filterMap.mp hx
    cases ho : out r with
    | none => rw [ho] at heq; cases heq
    | some v =>
      rw [ho] at heq
      cases heq
      exact ⟨r, hr, ho, rfl⟩
  · rintro ⟨r, hr, ho, hx⟩
    rw [hx]
    exact List.mem_filterMap.mpr ⟨r, hr, by rw [ho]⟩

/-- C3 amended: on a run in which every selected rule returns (no rule
raises of its own), the dispatcher prints the header of every selected
rule (nothing is short-circuited), prints one WARN block per
COMPLAIN-mode failure, prints one ERROR block — carrying the failure's
violation cases — per ENFORCE-mode failure, and ends with the
`ValidationError` whose message is the fixed string "One or more
enforced validation rules failed" — which lists no violation cases —
exactly when some ENFORCE-mode rule failed; otherwise no error is
raised. The ENFORCE violation cases thus appear only in the printed
ERROR blocks, never in the raised error. -/
theorem run_validation_rules_behaviour
    (vrs : List (String × List ValidationRule)) (input : ValidationRuleInput)
    (out : ValidationRule → Option ValidationRuleViolatedError)
    (hok : ∀ r ∈ allRules vrs, r.function input = .ok (out r))
    (hnodup : ((allRules vrs).map ruleKey).Nodup) :
    (∀ r ∈ allRules vrs,
      ("    Rule " ++ r.name ++ " ... ") ∈ (run_validation_rules vrs input).1) ∧
    (∀ r ∈ allRules vrs, ∀ v, out r = some v → v.mode = .COMPLAIN →
      warnLine r v ∈ (run_validation_rules vrs input).1) ∧
    (∀ r ∈ allRules vrs, ∀ v, out r = some v → v.mode = .ENFORCE →
      errorLine r v ∈ (run_validation_rules vrs input).1) ∧
    ((run_validation_rules vrs input).2 =
        .validationError ENFORCE_FAILURE_MESSAGE ↔
      ∃ r ∈ allRules vrs, ∃ v, out r = some v ∧ v.mode = .ENFORCE) ∧
    ((run_validation_rules vrs input).2 = .ok ∨
      (run_validation_rules vrs input).2 =
        .validationError ENFORCE_FAILURE_MESSAGE) := by
  obtain ⟨nl, hloop, hmem⟩ := runRulesLoop_ok input out vrs [] [] hok
  rw [foldl_upsert_fresh out (allRules vrs) [] hnodup (by simp)] at hloop
  simp only [List.nil_append] at hloop
  have hfr : ((allRules vrs).map fun r => (ruleKey r, (r, out r))).filterMap
      (fun kv => match kv.2.2 with
        | some v => some (kv.1, kv.2.1, v)
        | none => none) = failRowsOf out (allRules vrs) := by
    rw [List.filterMap_map]
    rfl
  have hrun : run_validation_rules vrs input =
      (nl ++ ((failRowsOf out (allRules vrs)).filter
          (fun x => x.2.2.mode = ValidationRuleMode.COMPLAIN)).map
          (fun x => warnLine x.2.1 x.2.2) ++
        ((failRowsOf out (allRules vrs)).filter
          (fun x => x.2.2.mode = ValidationRuleMode.ENFORCE)).map
          (fun x => errorLine x.2.1 x.2.2),
       if ((failRowsOf out (allRules vrs)).filter
            (fun x => x.2.2.mode = ValidationRuleMode.ENFORCE)).length > 0 then
         .validationError ENFORCE_FAILURE_MESSAGE
       else
         .ok) := by
    simp only [run_validation_rules, hloop, hfr]
  rw [hrun]
  refine ⟨?_, ?_, ?_, ?_, ?_⟩
  · intro r hr
    exact List.mem_append_left _ (List.mem_append_left _ (hmem r hr))
  · intro r hr v hv hm
    have hx : (ruleKey r, r, v) ∈ failRowsOf out (allRules vrs) :=
      (mem_failRowsOf out (allRules vrs) (ruleKey r, r, v)).mpr
        ⟨r, hr, hv, rfl⟩
    have hxf : (ruleKey r, r, v) ∈ (failRowsOf out (allRules vrs)).filter
        (fun x => x.2.2.mode = ValidationRuleMode.COMPLAIN) :=
      List.mem_filter.mpr ⟨hx, by simp [hm]⟩
    exact List.mem_append_left _ (List.mem_append_right _
      (List.mem_map.mpr ⟨(ruleKey r, r, v), hxf, rfl⟩))
  · intro r hr v hv hm
    have hx : (ruleKey r, r, v) ∈ failRowsOf out (allRules vrs) :=
      (mem_failRowsOf out (allRules vrs) (ruleKey r, r, v)).mpr
        ⟨r, hr, hv, rfl⟩
    have hxf : (ruleKey r, r, v) ∈ (failRowsOf out (allRules vrs)).filter
        (fun x => x.2.2.mode = ValidationRuleMode.ENFORCE) :=
      List.mem_filter.mpr ⟨hx, by simp [hm]⟩
    exact List.mem_append_right _
      (List.mem_map.mpr ⟨(ruleKey r, r, v), hxf, rfl⟩)
  · constructor
    · intro hout
      by_cases hlen : ((failRowsOf out (allRules vrs)).filter
          (fun x => x.2.2.mode = ValidationRuleMode.ENFORCE)).length > 0
      · obtain ⟨x, hxmem⟩ := List.exists_mem_of_length_pos hlen
        have hxf := List.mem_filter.mp hxmem
        obtain ⟨r, hr, ho, hxeq⟩ :=
          (mem_failRowsOf out (allRules vrs) x).mp hxf.1
        exact ⟨r, hr, x.2.2, ho, by simpa using hxf.2⟩
      · rw [if_neg hlen] at hout
        cases hout
    · rintro ⟨r, hr, v, ho, hm⟩
      have hx : (ruleKey r, r, v) ∈ (failRowsOf out (allRules vrs)).filter
          (fun x => x.2.2.mode = ValidationRuleMode.ENFORCE) :=
        List.mem_filter.mpr
          ⟨(mem_failRowsOf out (allRules vrs) (ruleKey r, r, v)).mpr
            ⟨r, hr, ho, rfl⟩, by simp [hm]⟩
      rw [if_pos (List.length_pos.mpr (List.ne_nil_of_mem hx))]
  · by_cases hlen : ((failRowsOf out (allRules vrs)).filter
        (fun x => x.2.2.mode = ValidationRuleMode.ENFORCE)).length > 0
    · right; rw [if_pos hlen]
    · left; rw [if_neg hlen]

/-- A minimal rule-engine input (no templates, no assets). -/
def cexInput : ValidationRuleInput :=
  ⟨"sat_templates.yaml", [], [], "gs_templates.yaml", [], [], [], []⟩

/-- The violation returned by the failing ENFORCE rule: two cases. -/
def enforceViolation : ValidationRuleViolatedError :=
  ⟨"tracking target must be set", .ENFORCE, .SATELLITE,
    ["CHAN_A on SAT_1: bad", "CHAN_A on SAT_2: bad"]⟩

/-- The violation returned by the failing COMPLAIN rule: one case. -/
def complainViolation : ValidationRuleViolatedError :=
  ⟨"bandwidth should match", .COMPLAIN, .SATELLITE,
    ["CHAN_B on SAT_3: meh"]⟩

/-- An ENFORCE rule failing on two assets. -/
def enforceRuleC3 : ValidationRule :=
  ⟨"m", "enforce_rule", fun _ => .ok (some enforceViolation), none⟩

/-- A COMPLAIN rule failing on one asset. -/
def complainRuleC3 : ValidationRule :=
  ⟨"m", "complain_rule", fun _ => .ok (some complainViolation), none⟩

/-- The result of `out` for the two concrete rules. -/
def outC3 (r : ValidationRule) : Option ValidationRuleViolatedError :=
  if r.name = "enforce_rule" then some enforceViolation
  else some complainViolation

/-- C3 counterexample: with one ENFORCE rule failing on two cases and one
COMPLAIN rule failing on one, the run does abort — but the raised
error's message is the fixed string "One or more enforced validation
rules failed", which contains neither ENFORCE violation case; the cases
appear only in the printed ERROR block, so the claim that the message
lists exactly the ENFORCE cases is false. -/
theorem run_validation_rules_message_counterexample :
    (run_validation_rules [("m", [enforceRuleC3, complainRuleC3])]
        cexInput).2 =
      .validationError "One or more enforced validation rules failed" ∧
    ¬ ("CHAN_A on SAT_1".data <:+: ENFORCE_FAILURE_MESSAGE.data) ∧
    ¬ ("CHAN_A on SAT_2".data <:+: ENFORCE_FAILURE_MESSAGE.data) ∧
    errorLine enforceRuleC3 enforceViolation ∈
      (run_validation_rules [("m", [enforceRuleC3, complainRuleC3])]
        cexInput).1 := by
  refine ⟨?_, by decide, by decide, ?_⟩ <;>
  simp [run_validation_rules, runRulesLoop, runModuleRules,
    run_validation_rule, enforceRuleC3, complainRuleC3, upsertA,
    enforceViolation, complainViolation, failRowsOf, ENFORCE_FAILURE_MESSAGE]

/-- Witness for `run_validation_rules_behaviour` on the concrete
two-rule module: both rules run, the COMPLAIN warning and the ENFORCE
ERROR block (with its violation cases) are printed, and the run aborts
with the fixed generic message. -/
theorem run_validation_rules_behaviour_witness :
    (∀ r ∈ allRules [("m", [enforceRuleC3, complainRuleC3])],
      r.function cexInput = .ok (outC3 r)) ∧
    (∀ r ∈ allRules [("m", [enforceRuleC3, complainRuleC3])],
      ("    Rule " ++ r.name ++ " ... ") ∈
        (run_validation_rules [("m", [enforceRuleC3, complainRuleC3])]
          cexInput).1) ∧
    (∀ r ∈ allRules [("m", [enforceRuleC3, complainRuleC3])],
      ∀ v, outC3 r = some v → v.mode = .COMPLAIN →
        warnLine r v ∈
          (run_validation_rules [("m", [enforceRuleC3, complainRuleC3])]
            cexInput).1) ∧
    (∀ r ∈ allRules [("m", [enforceRuleC3, complainRuleC3])],
      ∀ v, outC3 r = some v → v.mode = .ENFORCE →
        errorLine r v ∈
          (run_validation_rules [("m", [enforceRuleC3, complainRuleC3])]
            cexInput).1) ∧
    ((run_validation_rules [("m", [enforceRuleC3, complainRuleC3])]
        cexInput).2 = .validationError ENFORCE_FAILURE_MESSAGE ↔
      ∃ r ∈ allRules [("m", [enforceRuleC3, complainRuleC3])],
        ∃ v, outC3 r = some v ∧ v.mode = .ENFORCE) ∧
    ((run_validation_rules [("m", [enforceRuleC3, complainRuleC3])]
        cexInput).2 = .ok ∨
      (run_validation_rules [("m", [enforceRuleC3, complainRuleC3])]
        cexInput).2 = .validationError ENFORCE_FAILURE_MESSAGE) :=
  have hok : ∀ r ∈ allRules [("m", [enforceRuleC3, complainRuleC3])],
      r.function cexInput = .ok (outC3 r) := by
    intro r hr
    simp only [allRules, List.foldr, List.append_nil] at hr
    rcases List.mem_cons.mp hr with h | h
    · subst h; rfl
    · rcases List.mem_cons.mp h with h' | h'
      · subst h'; rfl
      · cases h'
  have H := run_validation_rules_behaviour
    [("m", [enforceRuleC3, complainRuleC3])] cexInput outC3 hok (by decide)
  ⟨hok, H.1, H.2.1, H.2.2.1, H.2.2.2.1, H.2.2.2.2⟩

/-- A rule declaring a production-only restriction (as
`adcs_pointing_track_implies_tracking_target_config` does in
`validation_rules/constpipe/adcs_config_consistency.py`). -/
def prodOnlyRule : ValidationRule :=
  ⟨"constpipe.adcs_config_consistency",
   "adcs_pointing_track_implies_tracking_target_config",
   fun _ => .ok none, some .PRODUCTION_ONLY⟩

/-- C8: `filter_validation_rules_by_env` would drop the production-only
rule from a staging run — but `validate_all` never calls it: the rule
set selected once by `get_validation_rules` is passed unchanged to
`run_validation_rules` for every environment, so the staging run
executes (and prints the header of) the production-only rule instead of
skipping it. -/
theorem env_restricted_rule_runs_in_staging :
    prodOnlyRule.argRuleEnv = some .PRODUCTION_ONLY ∧
    ValidationRuleEnv.PRODUCTION_ONLY.value ≠ "staging" ∧
    filter_validation_rules_by_env
      [("constpipe.adcs_config_consistency", [prodOnlyRule])] "staging" = [] ∧
    (∃ lines outcome,
      validateAllRuleRuns
        [("constpipe.adcs_config_consistency", [prodOnlyRule])]
        (fun _ => true) (fun _ => true) (fun _ => cexInput) =
        [("staging", (lines, outcome)), ("production", (lines, outcome))] ∧
      ("    Rule " ++ prodOnlyRule.name ++ " ... ") ∈ lines) := by
  refine ⟨rfl, by decide, ?_, ?_⟩
  · simp [filter_validation_rules_by_env, prodOnlyRule, ValidationRuleEnv.value]
  · refine ⟨["  Module constpipe.adcs_config_consistency",
      "    Rule adcs_pointing_track_implies_tracking_target_config ... ",
      colored "PASS" "green"], .ok, ?_, by simp [prodOnlyRule]⟩
    simp [validateAllRuleRuns, get_validation_rules, ENVS, prodOnlyRule,
      run_validation_rules, runRulesLoop, runModuleRules,
      run_validation_rule, upsertA, failRowsOf]

/-- Structural induction for `Value` through its nested lists. -/
theorem Value.inductionOn {P : Value → Prop} (hnull : P .null)
    (hbool : ∀ b, P (.bool b)) (hint : ∀ n, P (.int n))
    (hstr : ∀ s, P (.str s))
    (hseq : ∀ xs, (∀ x ∈ xs, P x) → P (.seq xs))
    (hmap : ∀ m, (∀ kv ∈ m, P kv.2) → P (.map m)) : ∀ v, P v
  | .null => hnull
  | .bool b => hbool b
  | .int n => hint n
  | .str s => hstr s
  | .seq xs => hseq xs fun x hx =>
      Value.inductionOn hnull hbool hint hstr hseq hmap x
  | .map m => hmap m fun kv hkv =>
      Value.inductionOn hnull hbool hint hstr hseq hmap kv.2
termination_by v => sizeOf v
decreasing_by
  · exact Nat.lt_trans (List.sizeOf_lt_of_mem hx) (by simp)
  · calc sizeOf kv.2 < sizeOf kv := by obtain ⟨a, b⟩ := kv; simp
      _ < sizeOf m := List.sizeOf_lt_of_mem hkv
      _ < sizeOf (Value.map m) := by simp

/-- Well-formed values: every mapping (at any depth) has distinct keys,
as Python dicts guarantee. -/
def wfV : Value → Bool
  | .null => true
  | .bool _ => true
  | .int _ => true
  | .str _ => true
  | .seq xs => xs.attach.all fun x => wfV x.1
  | .map m =>
    decide ((m.map Prod.fst).Nodup) && (m.attach.all fun kv => wfV kv.1.2)
termination_by v => sizeOf v
decreasing_by
  · exact Nat.lt_trans (List.sizeOf_lt_of_mem x.2) (by simp)
  · rename_i m
    obtain ⟨⟨a, b⟩, hk⟩ := kv
    calc sizeOf b < sizeOf ((a, b) : String × Value) := by simp
      _ < sizeOf m := List.sizeOf_lt_of_mem hk
      _ < sizeOf (Value.map m) := by simp

/-- No element of the list is Python-equal to an earlier one (`seen`
accumulates the prefix). -/
def pyFreshAll (seen : List Value) : List Value → Bool
  | [] => true
  | x :: rest => !(pyMem x seen) && pyFreshAll (seen ++ [x]) rest

/-- A sequence without Python-equal duplicates. -/
def pyNodup (xs : List Value) : Bool :=
  pyFreshAll [] xs

theorem pyEqList_refl (xs : List Value) (h : ∀ x ∈ xs, pyEq x x = true) :
    pyEqList xs xs = true := by
  induction xs with
  | nil => simp [pyEqList]
  | cons x rest ih =>
    simp only [pyEqList, Bool.and_eq_true]
    exact ⟨h x (List.mem_cons_self x rest),
      ih fun y hy => h y (List.mem_cons_of_mem x hy)⟩

theorem pyEqKey_of_mem (m : List (String × Value)) (k : String) (v : Value)
    (hnd : (m.map Prod.fst).Nodup) (hmem : (k, v) ∈ m)
    (hv : pyEq v v = true) : pyEqKey k v m = true := by
  induction m with
  | nil => cases hmem
  | cons kv rest ih =>
    obtain ⟨k1, w1⟩ := kv
    simp only [List.map_cons, List.nodup_cons] at hnd
    rcases List.mem_cons.mp hmem with h | h
    · cases h
      simp [pyEqKey, hv]
    · have hk1 : ¬ (k1 = k) := by
        intro hq
        exact hnd.1 (hq ▸ (List.mem_map.mpr ⟨(k, v), h, rfl⟩))
      simp only [pyEqKey, if_neg hk1]
      exact ih hnd.2 h

theorem pyEqEntries_self (m : List (String × Value)) :
    ∀ l, (∀ kv ∈ l, pyEqKey kv.1 kv.2 m = true) → pyEqEntries l m = true := by
  intro l
  induction l with
  | nil => intro _; simp [pyEqEntries]
  | cons kv rest ih =>
    intro h
    obtain ⟨k1, w1⟩ := kv
    simp only [pyEqEntries, Bool.and_eq_true]
    exact ⟨h (k1, w1) (List.mem_cons_self _ rest),
      ih fun kv' h' => h kv' (List.mem_cons_of_mem _ h')⟩

/-- Python `==` is reflexive on well-formed values. -/
theorem pyEq_refl : ∀ v : Value, wfV v = true → pyEq v v = true := by
  intro v
  induction v using Value.inductionOn with
  | hnull => intro _; simp [pyEq]
  | hbool b => intro _; simp [pyEq]
  | hint n => intro _; simp [pyEq]
  | hstr s => intro _; simp [pyEq]
  | hseq xs ih =>
    intro hwf
    simp only [wfV, List.all_eq_true, List.mem_attach, forall_true_left,
      Subtype.forall] at hwf
    simp only [pyEq]
    exact pyEqList_refl xs fun x hx => ih x hx (hwf x hx)
  | hmap m ih =>
    intro hwf
    simp only [wfV, Bool.and_eq_true, decide_eq_true_eq, List.all_eq_true,
      List.mem_attach, forall_true_left, Subtype.forall] at hwf
    obtain ⟨hnd, hwfv⟩ := hwf
    simp only [pyEq, Bool.and_eq_true]
    refine ⟨by simp, pyEqEntries_self m m fun kv hkv => ?_⟩
    exact pyEqKey_of_mem m kv.1 kv.2 hnd (by simpa using hkv)
      (ih kv hkv (hwfv kv hkv))

theorem pyDedupGo_fresh (xs : List Value) :
    ∀ seen, pyFreshAll seen xs = true → pyDedupGo seen xs = xs := by
  induction xs with
  | nil => intro seen _; rfl
  | cons x rest ih =>
    intro seen hf
    simp only [pyFreshAll, Bool.and_eq_true, Bool.not_eq_true'] at hf
    simp only [pyDedupGo, hf.1, Bool.false_eq_true, if_false]
    rw [ih (seen ++ [x]) hf.2]

theorem pyDedupGo_append (l1 l2 : List Value) :
    ∀ seen, pyFreshAll seen l1 = true →
    pyDedupGo seen (l1 ++ l2) = pyDedupGo seen l1 ++ pyDedupGo (seen ++ l1) l2 := by
  induction l1 with
  | nil => intro seen _; simp [pyDedupGo]
  | cons x rest ih =>
    intro seen hf
    simp only [pyFreshAll, Bool.and_eq_true, Bool.not_eq_true'] at hf
    simp only [List.cons_append, pyDedupGo, hf.1, Bool.false_eq_true, if_false,
      List.append_eq]
    rw [ih (seen ++ [x]) hf.2]
    simp

theorem pyDedupGo_allMem (l : List Value) :
    ∀ seen, (∀ x ∈ l, pyMem x seen = true) → pyDedupGo seen l = [] := by
  induction l with
  | nil => intro seen _; rfl
  | cons x rest ih =>
    intro seen hmem
    simp only [pyDedupGo, hmem x (List.mem_cons_self x rest), if_true]
    exact ih seen fun y hy => hmem y (List.mem_cons_of_mem x hy)

/-- Chaining a duplicate-free list of well-formed values with itself and
deduplicating gives the list back. -/
theorem pyDedup_self_append (xs : List Value) (hnd : pyNodup xs = true)
    (hwf : ∀ x ∈ xs, pyEq x x = true) : pyDedup (xs ++ xs) = xs := by
  unfold pyDedup
  rw [pyDedupGo_append xs xs [] hnd, pyDedupGo_fresh xs [] hnd,
    pyDedupGo_allMem xs ([] ++ xs) ?h]
  · simp
  case h =>
    intro x hx
    simp only [List.nil_append, pyMem, List.any_eq_true]
    exact ⟨x, hx, hwf x hx⟩

/-- The canonicalization `merge(a, a)` performs on a value it can reach:
inside mappings it recurses into every value; a sequence whose first
element is a string is sorted (its elements are never recursed into);
everything else is left alone. -/
def mergeCanon : Value → Value
  | .seq xs =>
    .seq (match xs with
      | [] => []
      | x :: rest =>
        if isStrV x then
          match allStrings (x :: rest) with
          | some ss => (pyStrSort ss).map Value.str
          | none => x :: rest
        else x :: rest)
  | .map m => .map (m.attach.map fun kv => (kv.1.1, mergeCanon kv.1.2))
  | v => v
termination_by v => sizeOf v
decreasing_by
  obtain ⟨⟨a, b⟩, hk⟩ := kv
  calc sizeOf b < sizeOf ((a, b) : String × Value) := by simp
    _ < sizeOf m := List.sizeOf_lt_of_mem hk
    _ < sizeOf (Value.map m) := by simp

/-- The values on which `merge(a, a)` is the canonicalization above: the
root is a container; every mapping reached through mappings has distinct
keys and no string values (a string value would be exploded into a list
of its characters); every sequence reached through mappings is free of
Python-equal duplicates, has well-formed elements, and does not mix a
string first element with non-string elements (that would make `sorted`
raise `TypeError`). -/
def selfMergeSafe : Value → Bool
  | .seq xs =>
    pyNodup xs && (xs.attach.all fun x => wfV x.1) &&
      (match xs with
       | [] => true
       | x :: rest => !isStrV x || (allStrings (x :: rest)).isSome)
  | .map m =>
    decide ((m.map Prod.fst).Nodup) &&
      (m.attach.all fun kv =>
        match kv.1.2 with
        | .str _ => false
        | .seq _ => selfMergeSafe kv.1.2
        | .map _ => selfMergeSafe kv.1.2
        | _ => true)
  | _ => false
termination_by v => sizeOf v
decreasing_by
  all_goals
    obtain ⟨⟨a, b⟩, hk⟩ := kv
    calc sizeOf b < sizeOf ((a, b) : String × Value) := by simp
      _ < sizeOf m := List.sizeOf_lt_of_mem hk
      _ < sizeOf (Value.map m) := by simp

/-- Whether every all-string sequence reachable through mappings is
already sorted, i.e. whether `mergeCanon` is the identity. -/
def canonSorted : Value → Bool
  | .seq xs =>
    (match xs with
     | [] => true
     | x :: rest =>
       if isStrV x then
         match allStrings (x :: rest) with
         | some ss => decide (List.Sorted pyStrLeR ss)
         | none => true
       else true)
  | .map m => m.attach.all fun kv => canonSorted kv.1.2
  | _ => true
termination_by v => sizeOf v
decreasing_by
  obtain ⟨⟨a, b⟩, hk⟩ := kv
  calc sizeOf b < sizeOf ((a, b) : String × Value) := by simp
    _ < sizeOf m := List.sizeOf_lt_of_mem hk
    _ < sizeOf (Value.map m) := by simp

theorem allStrings_eq (xs : List Value) :
    ∀ ss, allStrings xs = some ss → xs = ss.map Value.str := by
  induction xs with
  | nil =>
    intro ss h
    simp only [allStrings] at h
    cases h
    rfl
  | cons x rest ih =>
    intro ss h
    cases x with
    | str s =>
      simp only [allStrings] at h
      cases hr : allStrings rest with
      | none => rw [hr] at h; cases h
      | some ss' =>
        rw [hr] at h
        simp only [Option.map] at h
        cases h
        simp [ih ss' hr]
    | null => exact Option.noConfusion h
    | bool b => exact Option.noConfusion h
    | int n => exact Option.noConfusion h
    | seq l => exact Option.noConfusion h
    | map mm => exact Option.noConfusion h

theorem pyStrSort_eq_self_iff (ss : List String) :
    pyStrSort ss = ss ↔ List.Sorted pyStrLeR ss := by
  constructor
  · intro h
    have := List.sorted_insertionSort pyStrLeR ss
    rwa [show List.insertionSort pyStrLeR ss = pyStrSort ss from rfl, h] at this
  · exact fun h => h.insertionSort_eq

theorem mergeCanon_map_eq (m : List (String × Value)) :
    mergeCanon (.map m) = .map (m.map fun kv => (kv.1, mergeCanon kv.2)) := by
  simp only [mergeCanon]
  congr 1
  exact List.attach_map_val m fun kv => (kv.1, mergeCanon kv.2)

/-- `all` over `attach` is `all` over the list. -/
theorem list_all_attach {α : Type} (l : List α) (f : α → Bool) :
    (l.attach.all fun x => f x.1) = l.all f := by
  apply Bool.coe_iff_coe.mp
  rw [List.all_eq_true, List.all_eq_true]
  constructor
  · intro h x hx
    exact h ⟨x, hx⟩ (List.mem_attach l ⟨x, hx⟩)
  · intro h x _
    exact h x.1 x.2

theorem canonSorted_map_eq (m : List (String × Value)) :
    canonSorted (.map m) = m.all fun kv => canonSorted kv.2 := by
  simp only [canonSorted]
  exact list_all_attach m fun kv => canonSorted kv.2

theorem mergeCanon_scalar (v : Value) (h : is_list_or_dict v = false) :
    mergeCanon v = v := by
  cases v <;> simp_all [is_list_or_dict, isSeqLike, isMapV, mergeCanon]

theorem alookup_of_mem_nodup (m : List (String × Value))
    (hnd : (m.map Prod.fst).Nodup) {k : String} {v : Value}
    (hmem : (k, v) ∈ m) : alookup m k = some v := by
  induction m with
  | nil => cases hmem
  | cons kv rest ih =>
    obtain ⟨k1, w1⟩ := kv
    simp only [List.map_cons, List.nodup_cons] at hnd
    rcases List.mem_cons.mp hmem with h | h
    · cases h
      simp [alookup]
    · have hk1 : ¬ (k1 = k) := by
        intro hq
        exact hnd.1 (hq ▸ (List.mem_map.mpr ⟨(k, v), h, rfl⟩))
      simp only [alookup, if_neg hk1]
      exact ih hnd.2 h

theorem aset_not_mem (m : List (String × Value)) (k : String) (v : Value)
    (h : k ∉ mapKeys m) : aset m k v = m := by
  induction m with
  | nil => rfl
  | cons kv rest ih =>
    obtain ⟨k1, w1⟩ := kv
    simp only [mapKeys, List.map_cons, List.mem_cons] at h
    push_neg at h
    simp only [aset, List.map_cons, if_neg (fun hq : k1 = k => h.1 hq.symm)]
    have := ih (by simpa [mapKeys] using h.2)
    simpa [aset] using this

theorem aset_self (m : List (String × Value)) (hnd : (m.map Prod.fst).Nodup)
    {k : String} {v : Value} (hl : alookup m k = some v) : aset m k v = m := by
  induction m with
  | nil => rfl
  | cons kv rest ih =>
    obtain ⟨k1, w1⟩ := kv
    simp only [List.map_cons, List.nodup_cons] at hnd
    by_cases hk : k1 = k
    · subst hk
      simp only [alookup, if_pos rfl] at hl
      obtain rfl : w1 = v := Option.some_inj.mp hl
      simp only [aset, List.map_cons, if_pos rfl]
      have h2 : aset rest k1 w1 = rest :=
        aset_not_mem rest k1 w1 (by simpa [mapKeys] using hnd.1)
      simpa [aset] using h2
    · simp only [alookup, if_neg hk] at hl
      simp only [aset, List.map_cons, if_neg hk]
      have := ih hnd.2 hl
      simpa [aset] using this

/-- `merge`'s dict loop, applied to a dict and entries that mirror it
(as in `merge(a, a)`): every named value is replaced by its
canonicalization (scalars are rewritten unchanged), other keys are
untouched. -/
theorem mergeDictLoop_self (ys : List (String × Value)) :
    ∀ m, (m.map Prod.fst).Nodup → (ys.map Prod.fst).Nodup →
    (∀ kv ∈ ys, alookup m kv.1 = some kv.2) →
    (∀ kv ∈ ys, isStrV kv.2 = false) →
    (∀ kv ∈ ys, is_list_or_dict kv.2 = true →
      mergeP kv.2 kv.2 = .ok (mergeCanon kv.2)) →
    mergeDictLoop m ys =
      .ok (m.map fun kv =>
        (kv.1, if kv.1 ∈ ys.map Prod.fst then mergeCanon kv.2 else kv.2)) := by
  induction ys with
  | nil =>
    intro m _ _ _ _ _
    simp only [mergeDictLoop, List.map_nil]
    congr 1
    have hpt : ∀ kv ∈ m,
        (kv.1, if kv.1 ∈ ([] : List String) then mergeCanon kv.2 else kv.2) =
          kv := by
      intro kv _
      simp
    rw [List.map_congr_left hpt]
    exact (List.map_id m).symm
  | cons kv0 rest ih =>
    obtain ⟨k0, v0⟩ := kv0
    intro m hndm hndys hlk hnostr hcanon
    simp only [List.map_cons, List.nodup_cons] at hndys
    have hl0 : alookup m k0 = some v0 :=
      hlk (k0, v0) (List.mem_cons_self _ rest)
    simp only [mergeDictLoop, hl0]
    have hval : ∀ kv ∈ m, kv.1 = k0 → kv.2 = v0 := by
      intro kv hkv hk
      have := alookup_of_mem_nodup m hndm
        (show (kv.1, kv.2) ∈ m by simpa using hkv)
      rw [hk, hl0] at this
      exact (Option.some_inj.mp this).symm
    by_cases hc : is_list_or_dict v0 = true
    · rw [if_pos hc, hcanon (k0, v0) (List.mem_cons_self _ rest) hc]
      simp only [Bind.bind, Except.bind]
      rw [ih (aset m k0 (mergeCanon v0))
        (by rw [show (aset m k0 (mergeCanon v0)).map Prod.fst =
            m.map Prod.fst from mapKeys_aset m k0 (mergeCanon v0)]
            exact hndm)
        hndys.2
        (fun kv hkv => by
          have hne : k0 ≠ kv.1 := by
            intro hq
            exact hndys.1 (hq ▸ List.mem_map.mpr ⟨kv, hkv, rfl⟩)
          rw [alookup_aset_ne m (mergeCanon v0) hne]
          exact hlk kv (List.mem_cons_of_mem _ hkv))
        (fun kv hkv => hnostr kv (List.mem_cons_of_mem _ hkv))
        (fun kv hkv hcc => hcanon kv (List.mem_cons_of_mem _ hkv) hcc)]
      congr 1
      simp only [aset, List.map_map]
      apply List.map_congr_left
      intro kv hkv
      by_cases hk : kv.1 = k0
      · have hv2 : kv.2 = v0 := hval kv hkv hk
        have hnotin : kv.1 ∉ rest.map Prod.fst := hk ▸ hndys.1
        simp [Function.comp, hk, hv2, hnotin]
        intro x hx
        exact absurd (List.mem_map.mpr ⟨(k0, x), hx, rfl⟩) hndys.1
      · have hmem : kv.1 ∈ rest.map Prod.fst ↔
            kv.1 ∈ k0 :: rest.map Prod.fst := by
          simp [List.mem_cons, hk]
        simp only [Function.comp, if_neg hk]
        by_cases hmm : kv.1 ∈ rest.map Prod.fst
        · simp [hmm, hmem.mp hmm]
        · simp [hmm, hk]
    · rw [if_neg hc, aset_self m hndm hl0]
      rw [ih m hndm hndys.2
        (fun kv hkv => hlk kv (List.mem_cons_of_mem _ hkv))
        (fun kv hkv => hnostr kv (List.mem_cons_of_mem _ hkv))
        (fun kv hkv hcc => hcanon kv (List.mem_cons_of_mem _ hkv) hcc)]
      congr 1
      apply List.map_congr_left
      intro kv hkv
      by_cases hk : kv.1 = k0
      · have hv2 : kv.2 = v0 := hval kv hkv hk
        have hnotin : kv.1 ∉ rest.map Prod.fst := hk ▸ hndys.1
        have hid : mergeCanon kv.2 = kv.2 := by
          rw [hv2]
          exact mergeCanon_scalar v0 (by simpa using hc)
        simp [hk, hv2, hnotin, hid, mergeCanon_scalar v0 (by simpa using hc)]
      · by_cases hmm : kv.1 ∈ rest.map Prod.fst
        · simp [hmm, hk]
        · simp [hmm, hk]

theorem selfMergeSafe_seq_elim (xs : List Value)
    (h : selfMergeSafe (.seq xs) = true) :
    pyNodup xs = true ∧ (∀ x ∈ xs, wfV x = true) ∧
    (∀ x rest, xs = x :: rest → isStrV x = true →
      (allStrings (x :: rest)).isSome = true) := by
  rw [selfMergeSafe.eq_def] at h
  simp only [Bool.and_eq_true, List.all_eq_true,
    List.mem_attach, forall_true_left, Subtype.forall] at h
  obtain ⟨⟨hnd, hwf⟩, hhead⟩ := h
  refine ⟨hnd, hwf, fun x rest hx hs => ?_⟩
  subst hx
  simp only [Bool.or_eq_true, Bool.not_eq_true'] at hhead
  rcases hhead with h | h
  · rw [hs] at h; cases h
  · exact h

theorem selfMergeSafe_map_elim (m : List (String × Value))
    (h : selfMergeSafe (.map m) = true) :
    (m.map Prod.fst).Nodup ∧
    ∀ kv ∈ m, isStrV kv.2 = false ∧
      (is_list_or_dict kv.2 = true → selfMergeSafe kv.2 = true) := by
  simp only [selfMergeSafe, Bool.and_eq_true, decide_eq_true_eq,
    List.all_eq_true, List.mem_attach, forall_true_left, Subtype.forall] at h
  obtain ⟨hnd, hall⟩ := h
  refine ⟨hnd, fun kv hkv => ?_⟩
  have hv := hall kv hkv
  cases hkv2 : kv.2 with
  | str s => rw [hkv2] at hv; cases hv
  | seq l =>
    rw [hkv2] at hv
    exact ⟨by simp [isStrV], fun _ => hv⟩
  | map mm =>
    rw [hkv2] at hv
    exact ⟨by simp [isStrV], fun _ => hv⟩
  | null =>
    exact ⟨by simp [hkv2, isStrV], fun hc => by
      simp [is_list_or_dict, isSeqLike, isMapV] at hc⟩
  | bool b =>
    exact ⟨by simp [hkv2, isStrV], fun hc => by
      simp [is_list_or_dict, isSeqLike, isMapV] at hc⟩
  | int n =>
    exact ⟨by simp [hkv2, isStrV], fun hc => by
      simp [is_list_or_dict, isSeqLike, isMapV] at hc⟩

/-- `merge(a, a)` computes the canonicalization on safe values. -/
theorem mergeP_self (v : Value) :
    selfMergeSafe v = true → mergeP v v = .ok (mergeCanon v) := by
  induction v using Value.inductionOn with
  | hnull => intro h; simp [selfMergeSafe] at h
  | hbool b => intro h; simp [selfMergeSafe] at h
  | hint n => intro h; simp [selfMergeSafe] at h
  | hstr s => intro h; simp [selfMergeSafe] at h
  | hseq xs ihx =>
    intro h
    obtain ⟨hnd, hwf, hhead⟩ := selfMergeSafe_seq_elim xs h
    have hd : pyDedup (xs ++ xs) = xs :=
      pyDedup_self_append xs hnd fun x hx => pyEq_refl x (hwf x hx)
    simp only [mergeP, seqElems, mergeSeqCore, hd]
    cases xs with
    | nil => simp [mergeCanon]
    | cons x rest =>
      by_cases hs : isStrV x = true
      · obtain ⟨ss, hss⟩ := Option.isSome_iff_exists.mp (hhead x rest rfl hs)
        simp only [hs, if_true, pySortStrHead, hss, Bind.bind, Except.bind]
        simp [mergeCanon, hs, hss]
      · simp only [hs, Bool.false_eq_true, if_false]
        simp [mergeCanon, hs]
  | hmap m ihm =>
    intro h
    obtain ⟨hnd, hvals⟩ := selfMergeSafe_map_elim m h
    simp only [mergeP]
    rw [mergeDictLoop_self m m hnd hnd
      (fun kv hkv => alookup_of_mem_nodup m hnd (by simpa using hkv))
      (fun kv hkv => (hvals kv hkv).1)
      (fun kv hkv hc => ihm kv hkv ((hvals kv hkv).2 hc))]
    simp only [Bind.bind, Except.bind]
    rw [mergeCanon_map_eq]
    congr 2
    apply List.map_congr_left
    intro kv hkv
    simp [List.mem_map.mpr ⟨kv, hkv, rfl⟩]

theorem list_map_eq_self_iff {α : Type} (l : List α) (f : α → α) :
    l.map f = l ↔ ∀ a ∈ l, f a = a := by
  induction l with
  | nil => simp
  | cons x rest ih => simp [ih]

/-- The canonicalization is the identity exactly when every reachable
all-string sequence is already sorted. -/
theorem mergeCanon_eq_self_iff (v : Value) :
    selfMergeSafe v = true → (mergeCanon v = v ↔ canonSorted v = true) := by
  induction v using Value.inductionOn with
  | hnull => intro h; simp [selfMergeSafe] at h
  | hbool b => intro h; simp [selfMergeSafe] at h
  | hint n => intro h; simp [selfMergeSafe] at h
  | hstr s => intro h; simp [selfMergeSafe] at h
  | hseq xs ihx =>
    intro h
    obtain ⟨-, -, hhead⟩ := selfMergeSafe_seq_elim xs h
    cases xs with
    | nil => simp [mergeCanon, canonSorted]
    | cons x rest =>
      by_cases hs : isStrV x = true
      · obtain ⟨ss, hss⟩ := Option.isSome_iff_exists.mp (hhead x rest rfl hs)
        have hxs : x :: rest = ss.map Value.str := allStrings_eq (x :: rest) ss hss
        simp only [mergeCanon, canonSorted, hs, if_true, hss]
        constructor
        · intro hc
          have hinj : Function.Injective Value.str := by
            intro a b hab
            injection hab
          have : (pyStrSort ss).map Value.str = ss.map Value.str := by
            injection hc with hc'
            rw [hc']
            exact hxs.symm ▸ rfl
          have hsort : pyStrSort ss = ss :=
            List.map_injective_iff.mpr hinj this
          simp [(pyStrSort_eq_self_iff ss).mp hsort]
        · intro hsorted
          have hsort : pyStrSort ss = ss :=
            (pyStrSort_eq_self_iff ss).mpr (by simpa using hsorted)
          rw [hsort, ← hxs]
      · simp [mergeCanon, canonSorted, hs]
  | hmap m ihm =>
    intro h
    obtain ⟨-, hvals⟩ := selfMergeSafe_map_elim m h
    rw [mergeCanon_map_eq, canonSorted_map_eq]
    have hmapiff : (Value.map (m.map fun kv => (kv.1, mergeCanon kv.2)) =
        Value.map m) ↔ ∀ kv ∈ m, mergeCanon kv.2 = kv.2 := by
      constructor
      · intro hc kv hkv
        have := (list_map_eq_self_iff m fun kv => (kv.1, mergeCanon kv.2)).mp
          (by injection hc) kv hkv
        have h2 := congrArg Prod.snd this
        simpa using h2
      · intro hpt
        congr 1
        exact (list_map_eq_self_iff m _).mpr fun kv hkv => by
          rw [hpt kv hkv]
    rw [hmapiff, List.all_eq_true]
    constructor
    · intro hpt kv hkv
      by_cases hc : is_list_or_dict kv.2 = true
      · exact (ihm kv hkv ((hvals kv hkv).2 hc)).mp (hpt kv hkv)
      · cases hv : kv.2 <;>
          simp_all [canonSorted, is_list_or_dict, isSeqLike, isMapV, isStrV]
    · intro hpt kv hkv
      by_cases hc : is_list_or_dict kv.2 = true
      · exact (ihm kv hkv ((hvals kv hkv).2 hc)).mpr (hpt kv hkv)
      · exact mergeCanon_scalar kv.2 (by simpa using hc)

/-- C6 counterexample: for the well-formed, duplicate-free mapping
`{"k": "ab"}` (which contains no sequence at all, so every all-string
sequence in it is vacuously sorted) the claim demands
`merge(a, a) == a`; instead the string value is treated as a container
and exploded into the sorted list of its characters. And for the
duplicate-free sequence `["b", 1]` the claim again demands
`merge(a, a) == a`; instead `sorted` raises `TypeError`. -/
theorem merge_self_counterexample :
    mergeP (.map [("k", .str "ab")]) (.map [("k", .str "ab")]) =
      .ok (.map [("k", .seq [.str "a", .str "b"])]) ∧
    Value.map [("k", .seq [.str "a", .str "b"])] ≠
      Value.map [("k", .str "ab")] ∧
    mergeP (.seq [.str "b", .int 1]) (.seq [.str "b", .int 1]) =
      .error .typeError := by
  refine ⟨?_, by simp, ?_⟩
  · simp +decide [mergeP, mergeDictLoop, mergeSeqCore, alookup, aset,
      is_list_or_dict, isSeqLike, isMapV, strChars, pyDedup, pyDedupGo,
      pyMem, pyEq, isStrV, pySortStrHead, allStrings, pyStrSort, seqElems,
      Bind.bind, Except.bind]
  · simp [mergeP, mergeSeqCore, seqElems, pyDedup, pyDedupGo, pyMem, pyEq,
      isStrV, pySortStrHead, allStrings, Bind.bind, Except.bind]

/-- C6 amended: for every `selfMergeSafe` value — a container whose
reachable mappings have distinct keys and no string values, and whose
reachable sequences are duplicate-free with well-formed elements and not
string-headed-mixed — `merge(a, a)` returns `a` canonicalized by sorting
the reachable string-first sequences (`mergeCanon`), and the result
equals `a` exactly when every such sequence is already sorted. -/
theorem merge_self_canonicalization (v : Value)
    (h : selfMergeSafe v = true) :
    mergeP v v = .ok (mergeCanon v) ∧
    (mergeCanon v = v ↔ canonSorted v = true) :=
  ⟨mergeP_self v h, mergeCanon_eq_self_iff v h⟩

/-- A safe concrete value for the self-merge witness: a mapping with a
scalar field and an unsorted all-string list field. -/
def selfMergeExample : Value :=
  .map [("n", .int 3), ("l", .seq [.str "b", .str "a"])]

/-- Witness for `merge_self_canonicalization` on `selfMergeExample`:
merging it with itself sorts the string list (so the result differs from
the input exactly as the unsorted list dictates). -/
theorem merge_self_canonicalization_witness :
    selfMergeSafe selfMergeExample = true ∧
    (mergeP selfMergeExample selfMergeExample =
        .ok (mergeCanon selfMergeExample) ∧
      (mergeCanon selfMergeExample = selfMergeExample ↔
        canonSorted selfMergeExample = true)) ∧
    mergeCanon selfMergeExample =
      .map [("n", .int 3), ("l", .seq [.str "a", .str "b"])] ∧
    canonSorted selfMergeExample = false :=
  have hsafe : selfMergeSafe selfMergeExample = true := by
    rw [selfMergeSafe.eq_def]
    simp +decide [selfMergeExample, pyNodup, pyFreshAll, pyMem, pyEq, wfV,
      selfMergeSafe, isStrV, allStrings]
  ⟨hsafe, merge_self_canonicalization selfMergeExample hsafe,
   by
    show mergeCanon (.map [("n", .int 3), ("l", .seq [.str "b", .str "a"])]) = _
    rw [mergeCanon_map_eq]
    simp +decide [mergeCanon, isStrV, allStrings, pyStrSort],
   by
    show canonSorted (.map [("n", .int 3), ("l", .seq [.str "b", .str "a"])]) =
      false
    rw [canonSorted_map_eq]
    simp +decide [canonSorted, isStrV, allStrings, pyStrLeR, pyStrLe, charsLe,
      List.Sorted]⟩
